import Mathlib

/-!
Verification of the owm window-layout core: a shallow embedding of the
geometry primitives, the bit-vector codec, the objective suite and the
geometric post-processor, together with theorems settling the spec claims.

Conventions of the embedding:
* `usize` is modelled as `Nat`; subtraction written with `Nat.sub` is used
  where the Rust code cannot underflow, and `usizeSub` (wrapping modulo
  `2 ^ 64`, i.e. release-mode semantics) where underflow is reachable.
* `f64` arithmetic is modelled exactly over `ℚ`; `as usize` casts of
  non-negative values are modelled as the rational floor.
* Sizes carry plain `Nat` widths and heights; the `NonZeroUsize` invariants
  of the Rust types appear as explicit hypotheses where they matter.
-/

namespace Owm

/-- Wrapping (release-mode) `usize` subtraction. -/
def usizeSub (a b : Nat) : Nat :=
  if b ≤ a then a - b else 2 ^ 64 - (b - a)

/-- A width/height pair, from `Size` in `rect.rs`. -/
structure Size where
  width : Nat
  height : Nat
deriving DecidableEq, Repr

/-- A position, from `Pos` in `rect.rs`. -/
structure Pos where
  x : Nat
  y : Nat
deriving DecidableEq, Repr

/-- A rectangle, from `Rect` in `rect.rs`. -/
structure Rect where
  pos : Pos
  size : Size
deriving DecidableEq, Repr

instance : Inhabited Pos := ⟨⟨0, 0⟩⟩

instance : Inhabited Size := ⟨⟨0, 0⟩⟩

instance : Inhabited Rect := ⟨⟨⟨0, 0⟩, ⟨0, 0⟩⟩⟩

def Size.area (s : Size) : Nat := s.width * s.height

/-- `Rect::new`. -/
def Rect.mk' (x y width height : Nat) : Rect := ⟨⟨x, y⟩, ⟨width, height⟩⟩

def Rect.left (r : Rect) : Nat := r.pos.x

def Rect.right (r : Rect) : Nat := r.pos.x + r.size.width

def Rect.top (r : Rect) : Nat := r.pos.y

def Rect.bottom (r : Rect) : Nat := r.pos.y + r.size.height

def Rect.width (r : Rect) : Nat := r.size.width

def Rect.height (r : Rect) : Nat := r.size.height

def Rect.area (r : Rect) : Nat := r.size.area

def Rect.centerX (r : Rect) : Nat := r.left + r.size.width / 2

def Rect.centerY (r : Rect) : Nat := r.top + r.size.height / 2

def Rect.center (r : Rect) : Pos := ⟨r.centerX, r.centerY⟩

def Rect.topLeft (r : Rect) : Pos := ⟨r.left, r.top⟩

def Rect.topRight (r : Rect) : Pos := ⟨r.right, r.top⟩

def Rect.bottomLeft (r : Rect) : Pos := ⟨r.left, r.bottom⟩

def Rect.bottomRight (r : Rect) : Pos := ⟨r.right, r.bottom⟩

/-- Manhattan distance between positions, from `Pos::dist`. -/
def Pos.dist (p q : Pos) : Nat :=
  (if p.x > q.x then p.x - q.x else q.x - p.x) +
    (if p.y > q.y then p.y - q.y else q.y - p.y)

/-- `Rect::overlap`: the intersection rectangle when it is non-degenerate. -/
def Rect.overlap (r o : Rect) : Option Rect :=
  let left := max r.left o.left
  let right := min r.right o.right
  let top := max r.top o.top
  let bottom := min r.bottom o.bottom
  if left < right ∧ top < bottom then
    some ⟨⟨left, top⟩, ⟨right - left, bottom - top⟩⟩
  else
    none

/-- `RangeExclusive` over `usize`, from `rect.rs`. -/
structure RangeExclusive where
  lo : Nat
  hi : Nat
deriving DecidableEq, Repr

/-- `RangeExclusive::contains`: strict membership in the open interval. -/
def RangeExclusive.containsPt (r : RangeExclusive) (x : Nat) : Prop :=
  x > r.lo ∧ x < r.hi

instance (r : RangeExclusive) (x : Nat) : Decidable (r.containsPt x) :=
  inferInstanceAs (Decidable (_ ∧ _))

/-- `RangeExclusive::contains_either`. -/
def RangeExclusive.containsEither (r o : RangeExclusive) : Prop :=
  r.containsPt o.lo ∨ r.containsPt o.hi

instance (r o : RangeExclusive) : Decidable (r.containsEither o) :=
  inferInstanceAs (Decidable (_ ∨ _))

/-- `RangeExclusive::intersects`. -/
def RangeExclusive.intersects (r o : RangeExclusive) : Prop :=
  r = o ∨ r.containsEither o ∨ o.containsEither r

instance (r o : RangeExclusive) : Decidable (r.intersects o) :=
  inferInstanceAs (Decidable (_ ∨ _))

instance : Inhabited RangeExclusive := ⟨⟨0, 0⟩⟩

def Rect.xRangeExclusive (r : Rect) : RangeExclusive := ⟨r.left, r.right⟩

def Rect.yRangeExclusive (r : Rect) : RangeExclusive := ⟨r.top, r.bottom⟩

/-- Stable insertion placing `a` before the first element `b` with `le a b`. -/
def sortedInsert {α : Type} (le : α → α → Bool) (a : α) : List α → List α
  | [] => [a]
  | b :: l => if le a b then a :: b :: l else b :: sortedInsert le a l

/-- Stable insertion sort; models Rust's stable `sort`/`sort_by_key`. -/
def insertionSort {α : Type} (le : α → α → Bool) : List α → List α
  | [] => []
  | a :: l => sortedInsert le a (insertionSort le l)

/-- Removal of consecutive duplicates, models `Vec::dedup`. -/
def dedupSorted : List Nat → List Nat
  | [] => []
  | [a] => [a]
  | a :: b :: l =>
    if a = b then dedupSorted (b :: l) else a :: dedupSorted (b :: l)

/-- One vertical strip of the sweep in `covered_area`: the rectangles are
scanned in top-sorted order with a running `last_y2`, summing uncovered
vertical spans for rectangles spanning the whole strip. -/
def stripArea (sorted : List Rect) (left right : Nat) : Nat :=
  (sorted.foldl
    (fun (acc : Nat × Nat) r =>
      if r.left ≤ left ∧ right ≤ r.right then
        (acc.1 + (right - left) * (r.bottom - max acc.2 r.top), max r.bottom acc.2)
      else acc)
    (0, 0)).1

/-- `covered_area` from `rect.rs`: area of the union of rectangles via a
coordinate sweep over distinct x-boundaries. -/
def coveredArea (rects : List Rect) : Nat :=
  let xs := dedupSorted (insertionSort (fun a b => a ≤ b)
    (rects.flatMap (fun r => [r.left, r.right])))
  let sorted := insertionSort (fun a b => a.top ≤ b.top) rects
  ((xs.zip xs.tail).map (fun lr => stripArea sorted lr.1 lr.2)).sum

/-- `obscured_area` from `rect.rs`: per-rectangle unions of pairwise overlaps,
de-duplicated by subtracting the union of all overlaps. -/
def obscuredArea (rects : List Rect) : Nat :=
  if rects.length < 2 then 0
  else
    let idx := rects.enum
    let overlaps := idx.map (fun p =>
      (idx.filter (fun q => p.1 ≠ q.1)).filterMap (fun q => p.2.overlap q.2))
    usizeSub ((overlaps.map coveredArea).sum) (coveredArea overlaps.flatten)

/-! Post-processing, from `post_processing.rs`. -/

/-- `div_ceil` from `post_processing.rs`. -/
def divCeil (x y : Nat) : Nat :=
  if x % y > 0 then x / y + 1 else x / y

/-- `trim_outside`: clamp each rectangle's width/height to the container,
holding its top-left fixed; a clamped-to-zero dimension becomes 1. -/
def trimOutside (container : Size) (rects : List Rect) : List Rect :=
  rects.map (fun r =>
    let w := min r.width (usizeSub container.width r.pos.x)
    let h := min r.height (usizeSub container.height r.pos.y)
    ⟨r.pos, ⟨if w = 0 then 1 else w, if h = 0 then 1 else h⟩⟩)

/-- Per-edge freedoms (or borders), from `Sides` in `post_processing.rs`. -/
structure Sides where
  left : Nat
  right : Nat
  top : Nat
  bottom : Nat
deriving DecidableEq, Repr

instance : Inhabited Sides := ⟨⟨0, 0, 0, 0⟩⟩

def Sides.flatten (s : Sides) : List Nat := [s.left, s.right, s.top, s.bottom]

/-- The `flip_flop` tie-splitting rule of `remove_gaps`: share the budget
`dist` between two opposing directions, preferring to equalize. -/
def flipFlop (dist x y : Nat) : Nat × Nat :=
  let x1 := min x (divCeil dist 2)
  let y2 := min y (dist - x1)
  (min x (dist - y2), y2)

/-- Initial freedoms of `remove_gaps`: distance to each container edge. -/
def initFreedoms (container : Size) (rects : List Rect) : List Sides :=
  rects.map (fun r =>
    ⟨r.left, container.width - r.right, r.top, container.height - r.bottom⟩)

/-- The exploratory horizontal ray of a rectangle, bounded by the nearest
rectangle overlapping its y-span, or by max-size/container bounds. -/
def xRay (rects : List Rect) (maxSize container : Size) (r : Rect)
    (fr : Sides) : RangeExclusive :=
  let yr := r.yRangeExclusive
  let maxFree := maxSize.width - r.width
  let left :=
    if fr.left = 0 then r.left
    else
      max
        (((rects.filter (fun o =>
            o.right < r.left ∧ yr.intersects o.yRangeExclusive)).map
          Rect.right).max?.getD 0)
        (r.left - maxFree)
  let right :=
    if fr.right = 0 then r.right
    else
      min
        (((rects.filter (fun o =>
            r.right < o.left ∧ yr.intersects o.yRangeExclusive)).map
          Rect.left).min?.getD container.width)
        (r.right + maxFree)
  ⟨left, right⟩

/-- The exploratory vertical ray, symmetric to `xRay`. -/
def yRay (rects : List Rect) (maxSize container : Size) (r : Rect)
    (fr : Sides) : RangeExclusive :=
  let xr := r.xRangeExclusive
  let maxFree := maxSize.height - r.height
  let top :=
    if fr.top = 0 then r.top
    else
      max
        (((rects.filter (fun o =>
            o.bottom < r.top ∧ xr.intersects o.xRangeExclusive)).map
          Rect.bottom).max?.getD 0)
        (r.top - maxFree)
  let bottom :=
    if fr.bottom = 0 then r.bottom
    else
      min
        (((rects.filter (fun o =>
            r.bottom < o.top ∧ xr.intersects o.xRangeExclusive)).map
          Rect.top).min?.getD container.height)
        (r.bottom + maxFree)
  ⟨top, bottom⟩

/-- Per-rectangle freedom recomputation: split the remaining max-size budget
between the two opposing directions on each axis. -/
def recomputeFreedoms (maxSize container : Size) (r : Rect) : Sides :=
  let lr := flipFlop (maxSize.width - r.width) r.left (container.width - r.right)
  let tb := flipFlop (maxSize.height - r.height) r.top (container.height - r.bottom)
  ⟨lr.1, lr.2, tb.1, tb.2⟩

def getSides (fr : List Sides) (i : Nat) : Sides := fr.getD i default

def setLeft (fr : List Sides) (i v : Nat) : List Sides :=
  fr.set i { getSides fr i with left := v }

def setRight (fr : List Sides) (i v : Nat) : List Sides :=
  fr.set i { getSides fr i with right := v }

def setTop (fr : List Sides) (i v : Nat) : List Sides :=
  fr.set i { getSides fr i with top := v }

def setBottom (fr : List Sides) (i v : Nat) : List Sides :=
  fr.set i { getSides fr i with bottom := v }

/-- The four touching-edge zero assignments on the horizontal axis. -/
def zeroH (ri rj : Rect) (i j : Nat) (fr0 : List Sides) : List Sides :=
  let a1 := if rj.xRangeExclusive.containsPt ri.left then setLeft fr0 i 0 else fr0
  let a2 := if ri.xRangeExclusive.containsPt rj.right then setRight a1 j 0 else a1
  let a3 := if rj.xRangeExclusive.containsPt ri.right then setRight a2 i 0 else a2
  if ri.xRangeExclusive.containsPt rj.left then setLeft a3 j 0 else a3

/-- Split the horizontal gap when `rj` lies to the left of `ri`. -/
def splitGapW1 (ri rj : Rect) (yInt : Prop) [Decidable yInt] (i j : Nat)
    (fr : List Sides) : List Sides :=
  if rj.right ≤ ri.left then
    let dist := ri.left - rj.right
    if dist > 0 ∨ yInt then
      let p := flipFlop dist (getSides fr i).left (getSides fr j).right
      setRight (setLeft fr i p.1) j p.2
    else fr
  else fr

/-- Split the horizontal gap when `ri` lies to the left of `rj`. -/
def splitGapW2 (ri rj : Rect) (yInt : Prop) [Decidable yInt] (i j : Nat)
    (fr : List Sides) : List Sides :=
  if ri.right ≤ rj.left then
    let dist := rj.left - ri.right
    if dist > 0 ∨ yInt then
      let p := flipFlop dist (getSides fr i).right (getSides fr j).left
      setLeft (setRight fr i p.1) j p.2
    else fr
  else fr

/-- The four touching-edge zero assignments on the vertical axis. -/
def zeroV (ri rj : Rect) (i j : Nat) (fr0 : List Sides) : List Sides :=
  let b1 := if rj.yRangeExclusive.containsPt ri.top then setTop fr0 i 0 else fr0
  let b2 := if ri.yRangeExclusive.containsPt rj.bottom then setBottom b1 j 0 else b1
  let b3 := if rj.yRangeExclusive.containsPt ri.bottom then setBottom b2 i 0 else b2
  if ri.yRangeExclusive.containsPt rj.top then setTop b3 j 0 else b3

/-- Split the vertical gap when `rj` lies above `ri`. -/
def splitGapH1 (ri rj : Rect) (xInt : Prop) [Decidable xInt] (i j : Nat)
    (fr : List Sides) : List Sides :=
  if rj.bottom ≤ ri.top then
    let dist := ri.top - rj.bottom
    if dist > 0 ∨ xInt then
      let p := flipFlop dist (getSides fr i).top (getSides fr j).bottom
      setBottom (setTop fr i p.1) j p.2
    else fr
  else fr

/-- Split the vertical gap when `ri` lies above `rj`. -/
def splitGapH2 (ri rj : Rect) (xInt : Prop) [Decidable xInt] (i j : Nat)
    (fr : List Sides) : List Sides :=
  if ri.bottom ≤ rj.top then
    let dist := rj.top - ri.bottom
    if dist > 0 ∨ xInt then
      let p := flipFlop dist (getSides fr i).bottom (getSides fr j).top
      setTop (setBottom fr i p.1) j p.2
    else fr
  else fr

/-- The freedom-tightening performed for one pair `(i, j)` of rectangles in
`remove_gaps`, in the exact sequential order of the source. -/
def pairStep (ri rj : Rect) (xri yri xrj yrj : RangeExclusive) (i j : Nat)
    (fr0 : List Sides) : List Sides :=
  let fr1 :=
    if yri.intersects yrj then
      let yInt := ri.yRangeExclusive.intersects rj.yRangeExclusive
      splitGapW2 ri rj yInt i j
        (splitGapW1 ri rj yInt i j (if yInt then zeroH ri rj i j fr0 else fr0))
    else fr0
  if xri.intersects xrj then
    let xInt := ri.xRangeExclusive.intersects rj.xRangeExclusive
    splitGapH2 ri rj xInt i j
      (splitGapH1 ri rj xInt i j (if xInt then zeroV ri rj i j fr1 else fr1))
  else fr1

/-- All index pairs `(i, j)` with `i < j < n`, in the lexicographic order of
`tuple_combinations`. -/
def pairsBelow (n : Nat) : List (Nat × Nat) :=
  (List.range n).flatMap (fun i => (((List.range n).drop (i + 1)).map (fun j => (i, j))))

/-- Expansion of one rectangle on all four edges by at most `step`, following
`expand_left` / `expand_right` / `expand_top` / `expand_bottom`. -/
def expandRect (step : Nat) (r : Rect) (f : Sides) : Rect :=
  ⟨⟨r.pos.x - min f.left step, r.pos.y - min f.top step⟩,
    ⟨r.size.width + min f.left step + min f.right step,
      r.size.height + min f.top step + min f.bottom step⟩⟩

/-- The loop state of `remove_gaps`: current rectangles together with the
freedoms left over from the previous iteration (used by the rays). -/
abbrev GapState := List Rect × List Sides

/-- The freedoms computed by one iteration of the `remove_gaps` loop: rays
from the previous freedoms, per-rectangle recomputation, then pair
tightening. -/
def iterFreedoms (maxSize container : Size) (s : GapState) : List Sides :=
  let rects := s.1
  let xRays := (rects.zip s.2).map (fun p => xRay rects maxSize container p.1 p.2)
  let yRays := (rects.zip s.2).map (fun p => yRay rects maxSize container p.1 p.2)
  let fr1 := rects.map (recomputeFreedoms maxSize container)
  (pairsBelow rects.length).foldl
    (fun acc ij =>
      pairStep (rects.getD ij.1 default) (rects.getD ij.2 default)
        (xRays.getD ij.1 default) (yRays.getD ij.1 default)
        (xRays.getD ij.2 default) (yRays.getD ij.2 default) ij.1 ij.2 acc)
    fr1

/-- The largest safe step: minimum positive freedom value, if any. -/
def largestSafeStep (fr : List Sides) : Option Nat :=
  (((fr.map Sides.flatten).flatten).filter (fun x => 0 < x)).min?

/-- One iteration of the `remove_gaps` loop; `none` means the loop exits. -/
def gapStep (maxSize container : Size) (s : GapState) : Option GapState :=
  let fr := iterFreedoms maxSize container s
  match largestSafeStep fr with
  | none => none
  | some step => some ((s.1.zip fr).map (fun p => expandRect step p.1 p.2), fr)

/-- Termination measure: total remaining growth budget under max-size. -/
def gapMeasure (maxSize : Size) (rects : List Rect) : Nat :=
  (rects.map (fun r => (maxSize.width - r.width) + (maxSize.height - r.height))).sum

/-- Fuel-indexed runner for the `remove_gaps` loop. -/
def runFuel (maxSize container : Size) : Nat → GapState → GapState
  | 0, s => s
  | fuel + 1, s =>
    match gapStep maxSize container s with
    | none => s
    | some s' => runFuel maxSize container fuel s'

/-- `remove_gaps`: run the loop from the initial freedoms; the fuel
`gapMeasure + 1` is proved sufficient below. -/
def removeGaps (maxSize container : Size) (rects : List Rect) : List Rect :=
  (runFuel maxSize container (gapMeasure maxSize rects + 1)
    (rects, initFreedoms container rects)).1

/-- Iterated `gapStep` as a partial loop: `none` once the loop has exited. -/
def stepN (maxSize container : Size) : Nat → Option GapState → Option GapState
  | 0, o => o
  | n + 1, o => stepN maxSize container n (o.bind (gapStep maxSize container))

/-! The binary codec, from `binary.rs` and `encoding.rs`. -/

/-- `reversed_bits_to_int`: little-endian accumulator fold over the bits. -/
def reversedBitsToInt (bs : List Bool) : Nat :=
  (bs.foldl (fun (p : Nat × Nat) b => (if b then p.1 + p.2 else p.1, 2 * p.2)) (0, 1)).1

/-- The claimed little-endian positional weighting, written recursively; the
fold above is proved equal to it. -/
def specLEInt : List Bool → Nat
  | [] => 0
  | b :: t => (if b then 1 else 0) + 2 * specLEInt t

/-- Model of an `as usize` cast of a non-negative `f64`: the rational floor. -/
def ratFloorNat (q : ℚ) : Nat := (⌊q⌋ : ℤ).toNat

/-- The per-field decoder `ToFracLE`, with the affine map of
`reversed_bits_to_frac`: `lo` for zero bits, otherwise
`(hi - lo) / (2 ^ bits - 1) * int + lo`, exactly over `ℚ`. -/
structure ToFracLE where
  start : ℚ
  stop : ℚ
deriving DecidableEq, Repr

def ToFracLE.decode (d : ToFracLE) (bs : List Bool) : ℚ :=
  if bs.length = 0 then d.start
  else (d.stop - d.start) / (2 ^ bs.length - 1) * (reversedBitsToInt bs : ℚ) + d.start

/-- The field value claimed by the spec: `lo + (hi - lo) * int / (2^bits - 1)`,
or `lo` when the field's bit-width is 0. -/
def specFieldVal (lo hi : ℚ) (bs : List Bool) : ℚ :=
  if bs.length = 0 then lo else lo + (hi - lo) * (specLEInt bs : ℚ) / (2 ^ bs.length - 1)

/-- Fuel-based binary logarithm; with fuel at least `n` it computes
`Nat.log2 n` (proved below) while remaining kernel-computable. -/
def log2F : Nat → Nat → Nat
  | 0, _ => 0
  | fuel + 1, n => if n ≥ 2 then log2F fuel (n / 2) + 1 else 0

/-- `usize::ilog2`, the floor base-2 logarithm. -/
def ilog2 (n : Nat) : Nat := log2F n n

/-- `bits_for` from `encoding.rs`. -/
def bitsFor (x : Nat) : Nat :=
  if x = 0 then 0 else if x = 1 then 1 else ilog2 (x - 1) + 1

/-- `reduced_bits_for`: `bits_for` of the ceiling of `x / 128`. The source
computes the ceiling in `f64`, which is exact for every `x < 2 ^ 53`. -/
def reducedBitsFor (x : Nat) : Nat := bitsFor (divCeil x 128)

/-- The codec, from `Decoder` in `encoding.rs`: per-field affine decoders and
bit-slice ranges. -/
structure Decoder where
  maxSize : Size
  container : Size
  count : Nat
  xDec : ToFracLE
  yDec : ToFracLE
  wDec : ToFracLE
  hDec : ToFracLE
  xBitsRange : Nat × Nat
  yBitsRange : Nat × Nat
  wBitsRange : Nat × Nat
  hBitsRange : Nat × Nat
deriving DecidableEq, Repr

/-- `Decoder::new`. -/
def Decoder.new (minSize maxSize container : Size) (count : Nat) : Decoder :=
  let xMax := container.width - minSize.width
  let yMax := container.height - minSize.height
  let bitsX := reducedBitsFor xMax
  let bitsY := reducedBitsFor yMax
  let bitsW := reducedBitsFor (maxSize.width - minSize.width)
  let bitsH := reducedBitsFor (maxSize.height - minSize.height)
  { maxSize := maxSize
    container := container
    count := count
    xDec := ⟨0, xMax⟩
    yDec := ⟨0, yMax⟩
    wDec := ⟨minSize.width, maxSize.width⟩
    hDec := ⟨minSize.height, maxSize.height⟩
    xBitsRange := (0, bitsX)
    yBitsRange := (bitsX, bitsX + bitsY)
    wBitsRange := (bitsX + bitsY, bitsX + bitsY + bitsW)
    hBitsRange := (bitsX + bitsY + bitsW, bitsX + bitsY + bitsW + bitsH) }

def Decoder.bitsPerRect (d : Decoder) : Nat := d.hBitsRange.2

/-- `Decoder::bits`: total bit count of a layout. -/
def Decoder.bits (d : Decoder) : Nat := d.bitsPerRect * d.count

/-- A bit slice `bs[r.1 .. r.2]`. -/
def bitSlice (r : Nat × Nat) (bs : List Bool) : List Bool :=
  (bs.drop r.1).take (r.2 - r.1)

/-- The raw per-rectangle decode of `Decoder::decode2` (before clamping). -/
def Decoder.decodeRect (d : Decoder) (chunk : List Bool) : Rect :=
  let width := ratFloorNat (d.wDec.decode (bitSlice d.wBitsRange chunk))
  let height := ratFloorNat (d.hDec.decode (bitSlice d.hBitsRange chunk))
  Rect.mk' (ratFloorNat (d.xDec.decode (bitSlice d.xBitsRange chunk)))
    (ratFloorNat (d.yDec.decode (bitSlice d.yBitsRange chunk)))
    width height

/-- Split a row of bits into `count` chunks of `k` bits each. -/
def chunksOf (k : Nat) : Nat → List Bool → List (List Bool)
  | 0, _ => []
  | n + 1, bs => bs.take k :: chunksOf k n (bs.drop k)

/-- `Decoder::decode1` for one row: decode each rectangle's bit block, then
clamp to the container and remove gaps, as in `decode2`. -/
def Decoder.decode1 (d : Decoder) (bs : List Bool) : List Rect :=
  removeGaps d.maxSize d.container
    (trimOutside d.container ((chunksOf d.bitsPerRect d.count bs).map d.decodeRect))

/-! The objective suite, from `objective/`. -/

/-- Take `n` values from `base` extended by repeating `filler`; models
`iter().chain(repeat(filler)).take(n)`. -/
def chainTake (base : List ℚ) (filler : ℚ) (n : Nat) : List ℚ :=
  (List.range n).map (fun i => base.getD i filler)

/-- Cycling a ratio list by repeating its last value. -/
def cycleTake (l : List ℚ) (n : Nat) : List ℚ := chainTake l (l.getLastD 0) n

/-- `MinimizeGaps`, from `objective/gaps.rs`. -/
structure MinimizeGaps where
  area : Nat
  worstCase : ℚ
deriving Repr

def MinimizeGaps.new (container : Size) : MinimizeGaps :=
  ⟨container.area, ((container.area - 1 : Nat) : ℚ)⟩

def MinimizeGaps.evaluate (m : MinimizeGaps) (rects : List Rect) : ℚ :=
  if rects = [] then 1
  else ((usizeSub m.area (coveredArea rects) : Nat) : ℚ) / m.worstCase

/-- `MinimizeOverlap`, from `objective/overlap.rs`. -/
structure MinimizeOverlap where
  worstCase : ℚ
deriving Repr

def MinimizeOverlap.new (container : Size) (count : Nat) : MinimizeOverlap :=
  ⟨(((count - 1) * container.area : Nat) : ℚ)⟩

def MinimizeOverlap.evaluate (m : MinimizeOverlap) (rects : List Rect) : ℚ :=
  if rects.length < 2 then 0 else ((obscuredArea rects : Nat) : ℚ) / m.worstCase

/-- The shared penalty sum of `MaintainAreaRatios::_evaluate`:
`Σ |ratio * next - current|` over consecutive area pairs. -/
def areaRatsEval (ratios areas : List ℚ) : ℚ :=
  (((areas.zip areas.tail).zip ratios).map (fun p => |p.2 * p.1.2 - p.1.1|)).sum

/-- `MaintainAreaRatios`, from `objective/area_ratios.rs`. -/
structure MaintainAreaRats where
  ratios : List ℚ
  worstCase : ℚ
deriving Repr

def MaintainAreaRats.new (ratios : List ℚ) (maxSize : Size) (count : Nat) :
    MaintainAreaRats :=
  let worst :=
    if ratios ≠ [] ∧ count > 1 then
      areaRatsEval
        (chainTake (insertionSort (fun a b => decide (b ≤ a)) ratios)
          (ratios.getLastD 0) (count - 1))
        ((1 : ℚ) :: List.replicate (count - 1) ((maxSize.area : Nat) : ℚ))
    else 0
  ⟨ratios, worst⟩

def MaintainAreaRats.evaluate (m : MaintainAreaRats) (rects : List Rect) : ℚ :=
  if m.worstCase = 0 then 0
  else
    areaRatsEval (chainTake m.ratios (m.ratios.getLastD 0) (rects.length - 1))
      (rects.map (fun r => ((r.area : Nat) : ℚ))) / m.worstCase

/-- `abs_ratio` from `objective/aspect_ratios.rs`. -/
def absRat (x : ℚ) : ℚ := if x < 1 then 1 / x else x

/-- `MaintainAspectRatios`, from `objective/aspect_ratios.rs`. -/
structure MaintainAspectRats where
  ratios : List ℚ
  worstCase : ℚ
deriving Repr

def MaintainAspectRats.new (ratios : List ℚ) (maxSize : Size) (count : Nat) :
    MaintainAspectRats :=
  let worst :=
    if count > 0 ∧ ratios ≠ [] then
      ((cycleTake ratios count).map (fun ratio =>
        max (absRat ((maxSize.width : ℚ) / ratio))
          (absRat ((1 / (maxSize.height : ℚ)) / ratio)) - 1)).sum
    else 0
  ⟨ratios, worst⟩

def MaintainAspectRats.evaluate (m : MaintainAspectRats) (rects : List Rect) : ℚ :=
  if m.worstCase = 0 then 0
  else
    ((rects.zip (cycleTake m.ratios rects.length)).map (fun p =>
      absRat (((p.1.width : ℚ) / (p.1.height : ℚ)) / p.2) - 1)).sum / m.worstCase

/-- `PlaceAdjacentClose`, from `objective/adjacent_close.rs`. -/
structure PlaceAdjacentClose where
  worstCase : ℚ
deriving Repr

def PlaceAdjacentClose.new (container : Size) (count : Nat) : PlaceAdjacentClose :=
  ⟨(((count - 1) *
      Pos.dist ⟨1, 1⟩ ⟨container.width, container.height - 1⟩ : Nat) : ℚ)⟩

/-- The minimum cross-corner Manhattan distance of one consecutive pair. -/
def minCornerDist (r o : Rect) : Nat :=
  ([r.topLeft.dist o.topRight, r.topLeft.dist o.bottomLeft,
    r.topRight.dist o.topLeft, r.topRight.dist o.bottomRight,
    r.bottomLeft.dist o.topLeft, r.bottomLeft.dist o.bottomRight,
    r.bottomRight.dist o.topRight, r.bottomRight.dist o.bottomLeft]).min?.getD 0

def PlaceAdjacentClose.evaluate (m : PlaceAdjacentClose) (rects : List Rect) : ℚ :=
  if rects.length < 2 then 0
  else
    ((((rects.zip rects.tail).map (fun p => minCornerDist p.1 p.2)).sum : Nat) : ℚ) /
      m.worstCase

/-- `PlaceInReadingOrder`, from `objective/reading_order.rs`. -/
structure PlaceInReadingOrder where
  worstCase : ℚ
deriving Repr

def PlaceInReadingOrder.new (count : Nat) : PlaceInReadingOrder :=
  ⟨((count - 1 : Nat) : ℚ)⟩

def PlaceInReadingOrder.evaluate (m : PlaceInReadingOrder) (rects : List Rect) : ℚ :=
  if rects.length < 2 then 0
  else
    ((((rects.zip rects.tail).filter (fun p =>
      p.2.top < p.1.top ∨ p.2.left < p.1.left)).length : Nat) : ℚ) / m.worstCase

/-- `CenterMain`, from `objective/center_main.rs`. -/
structure CenterMain where
  center : Pos
  worstCase : ℚ
deriving Repr

def CenterMain.new (container : Size) : CenterMain :=
  let center : Pos := ⟨container.width / 2, container.height / 2⟩
  ⟨center,
    ((max (center.dist ⟨0, 0⟩) (center.dist ⟨container.width, container.height⟩) :
      Nat) : ℚ)⟩

def CenterMain.evaluate (m : CenterMain) (rects : List Rect) : ℚ :=
  match rects.head? with
  | some r => ((r.center.dist m.center : Nat) : ℚ) / m.worstCase
  | none => 0

/-- Modelled from the spec: `Rect::diff` lives in the `owm-problem` copy of
`rect.rs`, which is absent from the sources; the spec describes it as the
per-rectangle Manhattan distance in (x, y, width, height)-space. -/
def Rect.diff (r o : Rect) : Nat :=
  Nat.dist r.pos.x o.pos.x + Nat.dist r.pos.y o.pos.y +
    Nat.dist r.size.width o.size.width + Nat.dist r.size.height o.size.height

/-- `MaximizeConsistency`, from `objective/consistency.rs`. -/
structure MaximizeConsistency where
  previousLayout : List Rect
  worstCase : ℚ
deriving Repr

def MaximizeConsistency.new (container : Size) (previousLayout : List Rect) :
    MaximizeConsistency :=
  let maxPosX := container.width - 1
  let maxPosY := container.height - 1
  let maxWidth := container.width
  let maxHeight := container.height
  ⟨previousLayout,
    (((previousLayout.map (fun rect =>
      (([Rect.mk' 0 0 1 1, Rect.mk' 0 0 maxWidth 1, Rect.mk' 0 0 1 maxHeight,
        Rect.mk' 0 0 maxWidth maxHeight, Rect.mk' maxPosX 0 1 1,
        Rect.mk' maxPosX 0 1 maxHeight, Rect.mk' 0 maxPosY 1 1,
        Rect.mk' 0 maxPosY maxWidth 1,
        Rect.mk' maxPosX maxPosY 1 1].map (fun other => rect.diff other)).max?.getD
        0))).sum : Nat) : ℚ)⟩

def MaximizeConsistency.evaluate (m : MaximizeConsistency) (rects : List Rect) : ℚ :=
  if m.worstCase = 0 then 0
  else
    ((((rects.zip m.previousLayout).map (fun p => p.1.diff p.2)).sum : Nat) : ℚ) /
      m.worstCase

/-- The objective weights, from `Weights` in `objective/mod.rs`; already
validated, hence plain rationals. -/
structure Weights where
  gapsWeight : ℚ
  overlapWeight : ℚ
  areaRatsWeight : ℚ
  aspectRatsWeight : ℚ
  adjacentCloseWeight : ℚ
  readingOrderWeight : ℚ
  centerMainWeight : ℚ
  consistencyWeight : ℚ
deriving Repr

/-- `Problem`, from `objective/mod.rs`. -/
structure Problem where
  weights : Weights
  gaps : MinimizeGaps
  overlap : MinimizeOverlap
  areaRats : MaintainAreaRats
  aspectRats : MaintainAspectRats
  adjacentClose : PlaceAdjacentClose
  readingOrder : PlaceInReadingOrder
  centerMain : CenterMain
  consistency : MaximizeConsistency
deriving Repr

/-- `Problem::new`. -/
def Problem.new (weights : Weights) (areaRats aspectRats : List ℚ)
    (maxSize container : Size) (prevLayout : List Rect) : Problem :=
  let count := prevLayout.length + 1
  { weights := weights
    gaps := MinimizeGaps.new container
    overlap := MinimizeOverlap.new container count
    areaRats := MaintainAreaRats.new areaRats maxSize count
    aspectRats := MaintainAspectRats.new aspectRats maxSize count
    adjacentClose := PlaceAdjacentClose.new container count
    readingOrder := PlaceInReadingOrder.new count
    centerMain := CenterMain.new container
    consistency := MaximizeConsistency.new container prevLayout }

/-- One weighted objective term of `Problem::evaluate`: an objective with
weight zero (or negative, which validation forbids) is skipped. -/
def weightedTerm (w v : ℚ) : ℚ := if 0 < w then w * v else 0

/-- `Problem::evaluate`: the sum of the eight weighted objective terms. -/
def Problem.evaluate (p : Problem) (rects : List Rect) : ℚ :=
  weightedTerm p.weights.gapsWeight (p.gaps.evaluate rects) +
    weightedTerm p.weights.overlapWeight (p.overlap.evaluate rects) +
    weightedTerm p.weights.areaRatsWeight (p.areaRats.evaluate rects) +
    weightedTerm p.weights.aspectRatsWeight (p.aspectRats.evaluate rects) +
    weightedTerm p.weights.adjacentCloseWeight (p.adjacentClose.evaluate rects) +
    weightedTerm p.weights.readingOrderWeight (p.readingOrder.evaluate rects) +
    weightedTerm p.weights.centerMainWeight (p.centerMain.evaluate rects) +
    weightedTerm p.weights.consistencyWeight (p.consistency.evaluate rects)

/-- The sum of all eight weights. -/
def Weights.total (w : Weights) : ℚ :=
  w.gapsWeight + w.overlapWeight + w.areaRatsWeight + w.aspectRatsWeight +
    w.adjacentCloseWeight + w.readingOrderWeight + w.centerMainWeight +
    w.consistencyWeight

/-! Validated numeric wrappers, from `derive.rs` and the objective modules. -/

/-- An `f64` input value: `none` models NaN, `some q` a finite value. -/
def F64 := Option ℚ
deriving DecidableEq, Repr

/-- `PartialOrd::partial_cmp` on `f64`: `none` when either side is NaN. -/
def partialCmpF : F64 → F64 → Option Ordering
  | some x, some y => some (compare x y)
  | _, _ => none

/-- The error of `_derive_new_from_lower_bounded_partial_ord`: the value is
non-comparable (NaN for the float instantiations) or below the lower bound. -/
inductive LowerBoundedError where
  | isIncomparable : F64 → LowerBoundedError
  | tooLow : F64 → LowerBoundedError
deriving DecidableEq, Repr

/-- The generated `new` of `_derive_new_from_lower_bounded_partial_ord`. -/
def newFromLowerBounded (minValue : ℚ) (value : F64) :
    Except LowerBoundedError F64 :=
  match partialCmpF value (some minValue) with
  | none => .error (.isIncomparable value)
  | some .lt => .error (.tooLow value)
  | _ => .ok value

/-- `Weight::new`: lower bound 0. -/
def weightNew : F64 → Except LowerBoundedError F64 := newFromLowerBounded 0

/-- `AreaRatio::new`: lower bound 1. -/
def areaRatNew : F64 → Except LowerBoundedError F64 := newFromLowerBounded 1

/-- `f64::EPSILON` is exactly `2 ^ (-52)`. -/
def f64Eps : ℚ := 1 / 2 ^ 52

/-- `AspectRatio::new`: lower bound `f64::EPSILON`. -/
def aspectRatNew : F64 → Except LowerBoundedError F64 := newFromLowerBounded f64Eps

/-! Auxiliary order structure used by the termination and invariant proofs. -/

/-- Componentwise order on freedoms. -/
def Sides.le (a b : Sides) : Prop :=
  a.left ≤ b.left ∧ a.right ≤ b.right ∧ a.top ≤ b.top ∧ a.bottom ≤ b.bottom

/-- Pointwise decrease of freedom lists (out-of-range slots read as zero). -/
def frLe (a b : List Sides) : Prop := ∀ k, (getSides a k).le (getSides b k)

/-! Theorems. -/

/-- C10: `RangeExclusive.intersects` is symmetric, and reflexive on every
range, including degenerate ranges, which contain no point yet intersect
themselves. -/
theorem rangeExclusive_intersects_symm_refl :
    (∀ x y : RangeExclusive, x.intersects y ↔ y.intersects x) ∧
      (∀ x : RangeExclusive, x.intersects x) ∧
      (∀ x : RangeExclusive, x.hi ≤ x.lo →
        (∀ p : Nat, ¬x.containsPt p) ∧ x.intersects x) := by
  refine ⟨fun x y => ?_, fun x => Or.inl rfl,
    fun x h => ⟨fun p hp => ?_, Or.inl rfl⟩⟩
  · constructor <;> rintro (rfl | h | h)
    · exact Or.inl rfl
    · exact Or.inr (Or.inr h)
    · exact Or.inr (Or.inl h)
    · exact Or.inl rfl
    · exact Or.inr (Or.inr h)
    · exact Or.inr (Or.inl h)
  · simp only [RangeExclusive.containsPt] at hp
    omega

/-- C10 witness at concrete ranges. -/
theorem rangeExclusive_intersects_symm_refl_witness :
    ((RangeExclusive.mk 0 2).intersects ⟨1, 3⟩ ↔
        (RangeExclusive.mk 1 3).intersects ⟨0, 2⟩) ∧
      (RangeExclusive.mk 5 5).intersects ⟨5, 5⟩ ∧
      ¬(RangeExclusive.mk 5 5).containsPt 5 :=
  ⟨rangeExclusive_intersects_symm_refl.1 ⟨0, 2⟩ ⟨1, 3⟩,
    rangeExclusive_intersects_symm_refl.2.1 ⟨5, 5⟩,
    (rangeExclusive_intersects_symm_refl.2.2 ⟨5, 5⟩ (by decide)).1 5⟩

theorem flipFlop_fst_le (d x y : Nat) : (flipFlop d x y).1 ≤ x := by
  simp only [flipFlop]
  omega

theorem flipFlop_snd_le (d x y : Nat) : (flipFlop d x y).2 ≤ y := by
  simp only [flipFlop]
  omega

theorem flipFlop_add_le (d x y : Nat) :
    (flipFlop d x y).1 + (flipFlop d x y).2 ≤ d := by
  simp only [flipFlop]
  omega

theorem getSides_eq (fr : List Sides) (i : Nat) :
    getSides fr i = (fr[i]?).getD default := by
  simp [getSides, List.getD_eq_getElem?_getD]

theorem getSides_set_self {fr : List Sides} {i : Nat} {s : Sides}
    (h : i < fr.length) : getSides (fr.set i s) i = s := by
  simp [getSides_eq, List.getElem?_set_self h]

theorem getSides_set_ne {fr : List Sides} {i : Nat} {s : Sides} {k : Nat}
    (h : i ≠ k) : getSides (fr.set i s) k = getSides fr k := by
  simp [getSides_eq, List.getElem?_set_ne h]

theorem Sides.le_refl (a : Sides) : a.le a := ⟨le_rfl, le_rfl, le_rfl, le_rfl⟩

theorem Sides.le_trans {a b c : Sides} (h1 : a.le b) (h2 : b.le c) : a.le c := by
  obtain ⟨x1, x2, x3, x4⟩ := h1
  obtain ⟨y1, y2, y3, y4⟩ := h2
  exact ⟨x1.trans y1, x2.trans y2, x3.trans y3, x4.trans y4⟩

theorem frLe_refl (a : List Sides) : frLe a a := fun _ => Sides.le_refl _

theorem frLe_trans {a b c : List Sides} (h1 : frLe a b) (h2 : frLe b c) :
    frLe a c := fun k => Sides.le_trans (h1 k) (h2 k)

theorem frLe_set {fr : List Sides} {i : Nat} {s : Sides}
    (h : s.le (getSides fr i)) : frLe (fr.set i s) fr := by
  intro k
  by_cases hik : i = k
  · subst hik
    by_cases hlen : i < fr.length
    · rw [getSides_set_self hlen]
      exact h
    · rw [List.set_eq_of_length_le (Nat.le_of_not_lt hlen)]
      exact Sides.le_refl _
  · rw [getSides_set_ne hik]
    exact Sides.le_refl _

theorem frLe_setLeft {fr : List Sides} {i v : Nat}
    (h : v ≤ (getSides fr i).left) : frLe (setLeft fr i v) fr :=
  frLe_set ⟨h, le_rfl, le_rfl, le_rfl⟩

theorem frLe_setRight {fr : List Sides} {i v : Nat}
    (h : v ≤ (getSides fr i).right) : frLe (setRight fr i v) fr :=
  frLe_set ⟨le_rfl, h, le_rfl, le_rfl⟩

theorem frLe_setTop {fr : List Sides} {i v : Nat}
    (h : v ≤ (getSides fr i).top) : frLe (setTop fr i v) fr :=
  frLe_set ⟨le_rfl, le_rfl, h, le_rfl⟩

theorem frLe_setBottom {fr : List Sides} {i v : Nat}
    (h : v ≤ (getSides fr i).bottom) : frLe (setBottom fr i v) fr :=
  frLe_set ⟨le_rfl, le_rfl, le_rfl, h⟩

theorem frLe_iteSet {c : Prop} [Decidable c] {fr fr' : List Sides}
    (h : frLe fr' fr) : frLe (if c then fr' else fr) fr := by
  split
  · exact h
  · exact frLe_refl fr

theorem getSides_setLeft_right (fr : List Sides) (i v k : Nat) :
    (getSides (setLeft fr i v) k).right = (getSides fr k).right := by
  by_cases hik : i = k
  · subst hik
    by_cases hlen : i < fr.length
    · rw [setLeft, getSides_set_self hlen]
    · rw [setLeft, List.set_eq_of_length_le (Nat.le_of_not_lt hlen)]
  · rw [setLeft, getSides_set_ne hik]

theorem getSides_setRight_left (fr : List Sides) (i v k : Nat) :
    (getSides (setRight fr i v) k).left = (getSides fr k).left := by
  by_cases hik : i = k
  · subst hik
    by_cases hlen : i < fr.length
    · rw [setRight, getSides_set_self hlen]
    · rw [setRight, List.set_eq_of_length_le (Nat.le_of_not_lt hlen)]
  · rw [setRight, getSides_set_ne hik]

theorem getSides_setTop_bottom (fr : List Sides) (i v k : Nat) :
    (getSides (setTop fr i v) k).bottom = (getSides fr k).bottom := by
  by_cases hik : i = k
  · subst hik
    by_cases hlen : i < fr.length
    · rw [setTop, getSides_set_self hlen]
    · rw [setTop, List.set_eq_of_length_le (Nat.le_of_not_lt hlen)]
  · rw [setTop, getSides_set_ne hik]

theorem getSides_setBottom_top (fr : List Sides) (i v k : Nat) :
    (getSides (setBottom fr i v) k).top = (getSides fr k).top := by
  by_cases hik : i = k
  · subst hik
    by_cases hlen : i < fr.length
    · rw [setBottom, getSides_set_self hlen]
    · rw [setBottom, List.set_eq_of_length_le (Nat.le_of_not_lt hlen)]
  · rw [setBottom, getSides_set_ne hik]

theorem frLe_zeroH (ri rj : Rect) (i j : Nat) (fr : List Sides) :
    frLe (zeroH ri rj i j fr) fr := by
  unfold zeroH
  exact frLe_trans (frLe_iteSet (frLe_setLeft (Nat.zero_le _)))
    (frLe_trans (frLe_iteSet (frLe_setRight (Nat.zero_le _)))
      (frLe_trans (frLe_iteSet (frLe_setRight (Nat.zero_le _)))
        (frLe_iteSet (frLe_setLeft (Nat.zero_le _)))))

theorem frLe_zeroV (ri rj : Rect) (i j : Nat) (fr : List Sides) :
    frLe (zeroV ri rj i j fr) fr := by
  unfold zeroV
  exact frLe_trans (frLe_iteSet (frLe_setTop (Nat.zero_le _)))
    (frLe_trans (frLe_iteSet (frLe_setBottom (Nat.zero_le _)))
      (frLe_trans (frLe_iteSet (frLe_setBottom (Nat.zero_le _)))
        (frLe_iteSet (frLe_setTop (Nat.zero_le _)))))

theorem frLe_splitGapW1 (ri rj : Rect) (yInt : Prop) [Decidable yInt]
    (i j : Nat) (fr : List Sides) : frLe (splitGapW1 ri rj yInt i j fr) fr := by
  unfold splitGapW1
  split
  · dsimp only
    split
    · refine frLe_trans (frLe_setRight ?_) (frLe_setLeft (flipFlop_fst_le _ _ _))
      rw [getSides_setLeft_right]
      exact flipFlop_snd_le _ _ _
    · exact frLe_refl fr
  · exact frLe_refl fr

theorem frLe_splitGapW2 (ri rj : Rect) (yInt : Prop) [Decidable yInt]
    (i j : Nat) (fr : List Sides) : frLe (splitGapW2 ri rj yInt i j fr) fr := by
  unfold splitGapW2
  split
  · dsimp only
    split
    · refine frLe_trans (frLe_setLeft ?_) (frLe_setRight (flipFlop_fst_le _ _ _))
      rw [getSides_setRight_left]
      exact flipFlop_snd_le _ _ _
    · exact frLe_refl fr
  · exact frLe_refl fr

theorem frLe_splitGapH1 (ri rj : Rect) (xInt : Prop) [Decidable xInt]
    (i j : Nat) (fr : List Sides) : frLe (splitGapH1 ri rj xInt i j fr) fr := by
  unfold splitGapH1
  split
  · dsimp only
    split
    · refine frLe_trans (frLe_setBottom ?_) (frLe_setTop (flipFlop_fst_le _ _ _))
      rw [getSides_setTop_bottom]
      exact flipFlop_snd_le _ _ _
    · exact frLe_refl fr
  · exact frLe_refl fr

theorem frLe_splitGapH2 (ri rj : Rect) (xInt : Prop) [Decidable xInt]
    (i j : Nat) (fr : List Sides) : frLe (splitGapH2 ri rj xInt i j fr) fr := by
  unfold splitGapH2
  split
  · dsimp only
    split
    · refine frLe_trans (frLe_setTop ?_) (frLe_setBottom (flipFlop_fst_le _ _ _))
      rw [getSides_setBottom_top]
      exact flipFlop_snd_le _ _ _
    · exact frLe_refl fr
  · exact frLe_refl fr

theorem frLe_block_h (ri rj : Rect) (yInt : Prop) [Decidable yInt] (i j : Nat)
    (fr : List Sides) :
    frLe (splitGapW2 ri rj yInt i j (splitGapW1 ri rj yInt i j
      (if yInt then zeroH ri rj i j fr else fr))) fr :=
  frLe_trans (frLe_splitGapW2 _ _ _ _ _ _)
    (frLe_trans (frLe_splitGapW1 _ _ _ _ _ _) (frLe_iteSet (frLe_zeroH _ _ _ _ _)))

theorem frLe_block_v (ri rj : Rect) (xInt : Prop) [Decidable xInt] (i j : Nat)
    (fr : List Sides) :
    frLe (splitGapH2 ri rj xInt i j (splitGapH1 ri rj xInt i j
      (if xInt then zeroV ri rj i j fr else fr))) fr :=
  frLe_trans (frLe_splitGapH2 _ _ _ _ _ _)
    (frLe_trans (frLe_splitGapH1 _ _ _ _ _ _) (frLe_iteSet (frLe_zeroV _ _ _ _ _)))

theorem frLe_pairStep (ri rj : Rect) (xri yri xrj yrj : RangeExclusive)
    (i j : Nat) (fr : List Sides) :
    frLe (pairStep ri rj xri yri xrj yrj i j fr) fr := by
  unfold pairStep
  dsimp only
  have hfr1 := frLe_iteSet (c := yri.intersects yrj)
    (frLe_block_h ri rj (ri.yRangeExclusive.intersects rj.yRangeExclusive) i j fr)
  split
  · exact frLe_trans (frLe_block_v ri rj _ i j _) hfr1
  · exact hfr1

theorem length_setLeft (fr : List Sides) (i v : Nat) :
    (setLeft fr i v).length = fr.length := by simp [setLeft]

theorem length_setRight (fr : List Sides) (i v : Nat) :
    (setRight fr i v).length = fr.length := by simp [setRight]

theorem length_setTop (fr : List Sides) (i v : Nat) :
    (setTop fr i v).length = fr.length := by simp [setTop]

theorem length_setBottom (fr : List Sides) (i v : Nat) :
    (setBottom fr i v).length = fr.length := by simp [setBottom]

theorem length_zeroH (ri rj : Rect) (i j : Nat) (fr : List Sides) :
    (zeroH ri rj i j fr).length = fr.length := by
  unfold zeroH
  dsimp only
  split_ifs <;> simp [setLeft, setRight]

theorem length_zeroV (ri rj : Rect) (i j : Nat) (fr : List Sides) :
    (zeroV ri rj i j fr).length = fr.length := by
  unfold zeroV
  dsimp only
  split_ifs <;> simp [setTop, setBottom]

theorem length_splitGapW1 (ri rj : Rect) (yInt : Prop) [Decidable yInt]
    (i j : Nat) (fr : List Sides) :
    (splitGapW1 ri rj yInt i j fr).length = fr.length := by
  unfold splitGapW1
  dsimp only
  split_ifs <;> simp [setLeft, setRight]

theorem length_splitGapW2 (ri rj : Rect) (yInt : Prop) [Decidable yInt]
    (i j : Nat) (fr : List Sides) :
    (splitGapW2 ri rj yInt i j fr).length = fr.length := by
  unfold splitGapW2
  dsimp only
  split_ifs <;> simp [setLeft, setRight]

theorem length_splitGapH1 (ri rj : Rect) (xInt : Prop) [Decidable xInt]
    (i j : Nat) (fr : List Sides) :
    (splitGapH1 ri rj xInt i j fr).length = fr.length := by
  unfold splitGapH1
  dsimp only
  split_ifs <;> simp [setTop, setBottom]

theorem length_splitGapH2 (ri rj : Rect) (xInt : Prop) [Decidable xInt]
    (i j : Nat) (fr : List Sides) :
    (splitGapH2 ri rj xInt i j fr).length = fr.length := by
  unfold splitGapH2
  dsimp only
  split_ifs <;> simp [setTop, setBottom]

theorem length_pairStep (ri rj : Rect) (xri yri xrj yrj : RangeExclusive)
    (i j : Nat) (fr : List Sides) :
    (pairStep ri rj xri yri xrj yrj i j fr).length = fr.length := by
  unfold pairStep
  dsimp only
  have hy : (if yri.intersects yrj then
      splitGapW2 ri rj (ri.yRangeExclusive.intersects rj.yRangeExclusive) i j
        (splitGapW1 ri rj (ri.yRangeExclusive.intersects rj.yRangeExclusive) i j
          (if ri.yRangeExclusive.intersects rj.yRangeExclusive then
            zeroH ri rj i j fr else fr))
      else fr).length = fr.length := by
    split
    · rw [length_splitGapW2, length_splitGapW1]
      split
      · exact length_zeroH _ _ _ _ _
      · rfl
    · rfl
  split
  · rw [length_splitGapH2, length_splitGapH1]
    split
    · rw [length_zeroV, hy]
    · exact hy
  · exact hy

theorem length_foldl_pairStep (f : List Sides → Nat × Nat → List Sides)
    (hf : ∀ fr ij, (f fr ij).length = fr.length) (ps : List (Nat × Nat)) :
    ∀ fr : List Sides, (ps.foldl f fr).length = fr.length := by
  induction ps with
  | nil => intro fr; rfl
  | cons ij ps ih =>
    intro fr
    rw [List.foldl_cons, ih, hf]

theorem frLe_foldl_pairStep (f : List Sides → Nat × Nat → List Sides)
    (hf : ∀ fr ij, frLe (f fr ij) fr) (ps : List (Nat × Nat)) :
    ∀ fr : List Sides, frLe (ps.foldl f fr) fr := by
  induction ps with
  | nil => intro fr; exact frLe_refl fr
  | cons ij ps ih =>
    intro fr
    rw [List.foldl_cons]
    exact frLe_trans (ih _) (hf fr ij)

theorem length_iterFreedoms (maxS cont : Size) (s : GapState) :
    (iterFreedoms maxS cont s).length = s.1.length := by
  unfold iterFreedoms
  dsimp only
  rw [length_foldl_pairStep _ (fun fr ij => length_pairStep _ _ _ _ _ _ _ _ fr)]
  simp

theorem frLe_iterFreedoms (maxS cont : Size) (s : GapState) :
    frLe (iterFreedoms maxS cont s) (s.1.map (recomputeFreedoms maxS cont)) := by
  unfold iterFreedoms
  dsimp only
  exact frLe_foldl_pairStep _ (fun fr ij => frLe_pairStep _ _ _ _ _ _ _ _ fr) _ _

theorem recomputeFreedoms_lr (maxS cont : Size) (r : Rect) :
    (recomputeFreedoms maxS cont r).left + (recomputeFreedoms maxS cont r).right ≤
      maxS.width - r.width := by
  unfold recomputeFreedoms
  dsimp only
  exact flipFlop_add_le _ _ _

theorem recomputeFreedoms_tb (maxS cont : Size) (r : Rect) :
    (recomputeFreedoms maxS cont r).top + (recomputeFreedoms maxS cont r).bottom ≤
      maxS.height - r.height := by
  unfold recomputeFreedoms
  dsimp only
  exact flipFlop_add_le _ _ _

theorem getSides_of_ge {fr : List Sides} {k : Nat} (h : fr.length ≤ k) :
    getSides fr k = default := by
  simp [getSides_eq, List.getElem?_eq_none h]

theorem getSides_map_recompute (maxS cont : Size) (rs : List Rect) (k : Nat)
    (h : k < rs.length) :
    getSides (rs.map (recomputeFreedoms maxS cont)) k =
      recomputeFreedoms maxS cont (rs.getD k default) := by
  rw [getSides_eq, List.getElem?_map, List.getElem?_eq_getElem h,
    List.getD_eq_getElem _ _ h]
  rfl

/-- The freedoms computed by one iteration respect the per-rectangle growth
budget on both axes. -/
theorem iterFreedoms_budget (maxS cont : Size) (s : GapState) (k : Nat) :
    (getSides (iterFreedoms maxS cont s) k).left +
        (getSides (iterFreedoms maxS cont s) k).right ≤
      maxS.width - (s.1.getD k default).width ∧
    (getSides (iterFreedoms maxS cont s) k).top +
        (getSides (iterFreedoms maxS cont s) k).bottom ≤
      maxS.height - (s.1.getD k default).height := by
  by_cases h : k < s.1.length
  · have hle := frLe_iterFreedoms maxS cont s k
    rw [getSides_map_recompute maxS cont s.1 k h] at hle
    obtain ⟨h1, h2, h3, h4⟩ := hle
    constructor
    · exact le_trans (Nat.add_le_add h1 h2)
        (recomputeFreedoms_lr maxS cont (s.1.getD k default))
    · exact le_trans (Nat.add_le_add h3 h4)
        (recomputeFreedoms_tb maxS cont (s.1.getD k default))
  · have : (iterFreedoms maxS cont s).length ≤ k := by
      rw [length_iterFreedoms]
      omega
    rw [getSides_of_ge this]
    exact ⟨Nat.zero_le _, Nat.zero_le _⟩

theorem getSides_of_lt {fr : List Sides} {k : Nat} (h : k < fr.length) :
    getSides fr k = fr.get ⟨k, h⟩ := by
  rw [getSides_eq, List.getElem?_eq_getElem h]
  rfl

/-- A returned largest safe step is positive and is the freedom value of some
rectangle on some edge. -/
theorem largestSafeStep_spec {fr : List Sides} {step : Nat}
    (h : largestSafeStep fr = some step) :
    0 < step ∧ ∃ k, k < fr.length ∧
      (step = (getSides fr k).left ∨ step = (getSides fr k).right ∨
        step = (getSides fr k).top ∨ step = (getSides fr k).bottom) := by
  unfold largestSafeStep at h
  have hmem := List.min?_mem (fun a b => min_choice a b) h
  rw [List.mem_filter] at hmem
  obtain ⟨hmem, hpos⟩ := hmem
  refine ⟨by simpa using hpos, ?_⟩
  rw [List.mem_flatten] at hmem
  obtain ⟨l, hl, hstep⟩ := hmem
  rw [List.mem_map] at hl
  obtain ⟨sides, hsides, rfl⟩ := hl
  obtain ⟨k, hk, heq⟩ := List.mem_iff_getElem.mp hsides
  refine ⟨k, hk, ?_⟩
  rw [getSides_of_lt hk]
  simp only [Sides.flatten, List.mem_cons, List.not_mem_nil, or_false] at hstep
  rw [List.get_eq_getElem, heq]
  tauto

theorem getD_expand (step : Nat) (rs : List Rect) (fr : List Sides) (k : Nat)
    (h1 : k < rs.length) (h2 : k < fr.length) :
    ((rs.zip fr).map (fun p => expandRect step p.1 p.2)).getD k default =
      expandRect step (rs.getD k default) (getSides fr k) := by
  have hzip : k < (rs.zip fr).length := by
    rw [List.length_zip]
    omega
  have hmap : k < ((rs.zip fr).map (fun p => expandRect step p.1 p.2)).length := by
    rw [List.length_map]
    exact hzip
  rw [List.getD_eq_getElem _ _ hmap, List.getElem_map, List.getElem_zip,
    List.getD_eq_getElem _ _ h1, getSides_of_lt h2, List.get_eq_getElem]

theorem gapMeasure_eq_sum (maxS : Size) (rs : List Rect) :
    gapMeasure maxS rs = ∑ k ∈ Finset.range rs.length,
      ((maxS.width - (rs.getD k default).width) +
        (maxS.height - (rs.getD k default).height)) := by
  induction rs with
  | nil => simp [gapMeasure]
  | cons r t ih =>
    have hcons : gapMeasure maxS (r :: t) =
        ((maxS.width - r.width) + (maxS.height - r.height)) + gapMeasure maxS t := by
      simp [gapMeasure]
    rw [hcons, ih, List.length_cons, Finset.sum_range_succ']
    simp only [List.getD_cons_succ, List.getD_cons_zero]
    exact Nat.add_comm _ _

theorem gapStep_eq_none {maxS cont : Size} {s : GapState} :
    gapStep maxS cont s = none ↔
      largestSafeStep (iterFreedoms maxS cont s) = none := by
  unfold gapStep
  dsimp only
  cases largestSafeStep (iterFreedoms maxS cont s) <;> simp

/-- Each performed iteration of the gap-removal loop strictly decreases the
total remaining growth budget. -/
theorem gapStep_measure_lt {maxS cont : Size} {s s' : GapState}
    (h : gapStep maxS cont s = some s') :
    gapMeasure maxS s'.1 < gapMeasure maxS s.1 := by
  unfold gapStep at h
  dsimp only at h
  cases hstep : largestSafeStep (iterFreedoms maxS cont s) with
  | none =>
    rw [hstep] at h
    simp at h
  | some step =>
    rw [hstep] at h
    simp only [Option.some_inj] at h
    subst h
    dsimp only
    have hlenfr : (iterFreedoms maxS cont s).length = s.1.length :=
      length_iterFreedoms maxS cont s
    have hlen' : ((s.1.zip (iterFreedoms maxS cont s)).map
        (fun p => expandRect step p.1 p.2)).length = s.1.length := by
      rw [List.length_map, List.length_zip, hlenfr]
      exact Nat.min_self _
    obtain ⟨hpos, k0, hk0, hslot⟩ := largestSafeStep_spec hstep
    rw [gapMeasure_eq_sum, gapMeasure_eq_sum, hlen']
    apply Finset.sum_lt_sum
    · intro k hk
      rw [Finset.mem_range] at hk
      rw [getD_expand step s.1 _ k hk (by omega)]
      have hb := iterFreedoms_budget maxS cont s k
      dsimp only [expandRect, Rect.width, Rect.height] at hb ⊢
      omega
    · refine ⟨k0, Finset.mem_range.mpr (by omega), ?_⟩
      rw [getD_expand step s.1 _ k0 (by omega) hk0]
      have hb := iterFreedoms_budget maxS cont s k0
      dsimp only [expandRect, Rect.width, Rect.height] at hb ⊢
      rcases hslot with h | h | h | h <;> omega

/-- With fuel exceeding the measure, the loop runs to a genuine fixpoint. -/
theorem runFuel_fixed (maxS cont : Size) :
    ∀ (fuel : Nat) (s : GapState), gapMeasure maxS s.1 < fuel →
      gapStep maxS cont (runFuel maxS cont fuel s) = none := by
  intro fuel
  induction fuel with
  | zero => intro s h; omega
  | succ f ih =>
    intro s h
    rw [runFuel]
    cases hg : gapStep maxS cont s with
    | none => exact hg
    | some s' =>
      have hlt := gapStep_measure_lt hg
      exact ih s' (by omega)

theorem runFuel_invariant (maxS cont : Size) (P : List Rect → Prop)
    (hP : ∀ s s' : GapState, gapStep maxS cont s = some s' → P s.1 → P s'.1) :
    ∀ (fuel : Nat) (s : GapState), P s.1 → P (runFuel maxS cont fuel s).1 := by
  intro fuel
  induction fuel with
  | zero => intro s h; exact h
  | succ f ih =>
    intro s h
    rw [runFuel]
    cases hg : gapStep maxS cont s with
    | none => exact h
    | some s' => exact ih s' (hP s s' hg h)

theorem gapStep_length {maxS cont : Size} {s s' : GapState}
    (h : gapStep maxS cont s = some s') : s'.1.length = s.1.length := by
  unfold gapStep at h
  dsimp only at h
  cases hstep : largestSafeStep (iterFreedoms maxS cont s) with
  | none => rw [hstep] at h; simp at h
  | some step =>
    rw [hstep] at h
    simp only [Option.some_inj] at h
    subst h
    dsimp only
    rw [List.length_map, List.length_zip, length_iterFreedoms]
    exact Nat.min_self _

theorem runFuel_length (maxS cont : Size) (fuel : Nat) (s : GapState) :
    (runFuel maxS cont fuel s).1.length = s.1.length :=
  runFuel_invariant maxS cont (fun rs => rs.length = s.1.length)
    (fun u u' hg h => by
      show u'.1.length = s.1.length
      rw [gapStep_length hg]
      exact h) fuel s rfl

theorem removeGaps_length (maxS cont : Size) (rects : List Rect) :
    (removeGaps maxS cont rects).length = rects.length := by
  unfold removeGaps
  exact runFuel_length maxS cont _ _

theorem exists_stepN_none (maxS cont : Size) (s : GapState) :
    ∃ n, stepN maxS cont n (some s) = none := by
  generalize hm : gapMeasure maxS s.1 = m
  induction m using Nat.strong_induction_on generalizing s with
  | _ m ih =>
    cases hg : gapStep maxS cont s with
    | none => exact ⟨1, by simp [stepN, hg]⟩
    | some s' =>
      subst hm
      obtain ⟨n, hn⟩ := ih (gapMeasure maxS s'.1) (gapStep_measure_lt hg) s' rfl
      exact ⟨n + 1, by simp [stepN, hg, hn]⟩

/-- C3: for every max-size and container with max-size at most the container,
and every rectangle sequence, the gap-removal loop terminates; moreover each
iteration either finds a strictly positive largest safe step (the minimum
positive freedom value across all rectangles and edges) and expands every
rectangle on every edge by the minimum of that edge's freedom and the step,
or exits when no positive freedom remains. -/
theorem removeGaps_terminates (maxS cont : Size) (rects : List Rect)
    (_hW : maxS.width ≤ cont.width) (_hH : maxS.height ≤ cont.height) :
    (∃ n, stepN maxS cont n (some (rects, initFreedoms cont rects)) = none) ∧
      ∀ s : GapState,
        (∃ step, largestSafeStep (iterFreedoms maxS cont s) = some step ∧
            0 < step ∧
            gapStep maxS cont s =
              some ((s.1.zip (iterFreedoms maxS cont s)).map
                  (fun p => expandRect step p.1 p.2),
                iterFreedoms maxS cont s)) ∨
          largestSafeStep (iterFreedoms maxS cont s) = none ∧
            gapStep maxS cont s = none := by
  refine ⟨exists_stepN_none maxS cont _, fun s => ?_⟩
  cases hstep : largestSafeStep (iterFreedoms maxS cont s) with
  | none =>
    refine Or.inr ⟨rfl, ?_⟩
    unfold gapStep
    dsimp only
    rw [hstep]
  | some step =>
    refine Or.inl ⟨step, rfl, (largestSafeStep_spec hstep).1, ?_⟩
    unfold gapStep
    dsimp only
    rw [hstep]

/-- C3 witness at a concrete configuration. -/
theorem removeGaps_terminates_witness :
    (2 : Nat) ≤ 2 ∧
      ∃ n, stepN ⟨2, 2⟩ ⟨2, 2⟩ n
        (some ([Rect.mk' 0 0 1 1], initFreedoms ⟨2, 2⟩ [Rect.mk' 0 0 1 1])) =
        none :=
  ⟨le_rfl,
    (removeGaps_terminates ⟨2, 2⟩ ⟨2, 2⟩ [Rect.mk' 0 0 1 1] (by decide)
      (by decide)).1⟩

/-- C4 counterexample: two corner-touching unit rectangles have no overlap,
yet gap removal expands both to the full 2-by-2 container, producing
obscured area 4. -/
theorem removeGaps_overlap_counterexample :
    obscuredArea [Rect.mk' 0 0 1 1, Rect.mk' 1 1 1 1] = 0 ∧
      removeGaps ⟨2, 2⟩ ⟨2, 2⟩ [Rect.mk' 0 0 1 1, Rect.mk' 1 1 1 1] =
        [Rect.mk' 0 0 2 2, Rect.mk' 0 0 2 2] ∧
      obscuredArea
        (removeGaps ⟨2, 2⟩ ⟨2, 2⟩ [Rect.mk' 0 0 1 1, Rect.mk' 1 1 1 1]) = 4 := by
  decide

/-- C4 amended: gap removal preserves zero obscured area for sequences of
fewer than two rectangles; for two or more it can introduce overlap, as the
counterexample shows. -/
theorem removeGaps_no_overlap_small (maxS cont : Size) (rects : List Rect)
    (h : rects.length < 2) :
    obscuredArea rects = 0 ∧ obscuredArea (removeGaps maxS cont rects) = 0 := by
  constructor
  · unfold obscuredArea
    rw [if_pos h]
  · unfold obscuredArea
    rw [if_pos (by rw [removeGaps_length]; omega)]

/-- C4 amended witness at a concrete singleton. -/
theorem removeGaps_no_overlap_small_witness :
    ([Rect.mk' 0 0 1 1].length < 2) ∧
      obscuredArea (removeGaps ⟨3, 3⟩ ⟨3, 3⟩ [Rect.mk' 0 0 1 1]) = 0 :=
  ⟨by decide,
    (removeGaps_no_overlap_small ⟨3, 3⟩ ⟨3, 3⟩ [Rect.mk' 0 0 1 1] (by decide)).2⟩

theorem pairsBelow_short {n : Nat} (h : n ≤ 1) : pairsBelow n = [] := by
  match n, h with
  | 0, _ => decide
  | 1, _ => decide

/-- For at most one rectangle the pair loop is empty, so the freedoms of an
iteration do not depend on the carried freedoms. -/
theorem iterFreedoms_of_short {maxS cont : Size} {s : GapState}
    (h : s.1.length ≤ 1) :
    iterFreedoms maxS cont s = s.1.map (recomputeFreedoms maxS cont) := by
  unfold iterFreedoms
  dsimp only
  rw [pairsBelow_short h]
  rfl

theorem gapStep_congr_short {maxS cont : Size} {s t : GapState}
    (hst : s.1 = t.1) (h : s.1.length ≤ 1) :
    gapStep maxS cont s = gapStep maxS cont t := by
  unfold gapStep
  dsimp only
  rw [iterFreedoms_of_short h, iterFreedoms_of_short (by rw [← hst]; exact h),
    hst]

set_option maxRecDepth 40000 in
/-- C5 counterexample: a second application of gap removal changes the
result; the third rectangle grows from height 3 to height 4 only on the
second run, because the first run carries freedoms across iterations while a
fresh run starts from container-distance freedoms. -/
theorem removeGaps_idempotent_counterexample :
    removeGaps ⟨5, 4⟩ ⟨9, 5⟩ (removeGaps ⟨5, 4⟩ ⟨9, 5⟩
        [Rect.mk' 3 1 1 2, Rect.mk' 6 4 1 1, Rect.mk' 5 0 1 1,
          Rect.mk' 2 0 3 4]) ≠
      removeGaps ⟨5, 4⟩ ⟨9, 5⟩
        [Rect.mk' 3 1 1 2, Rect.mk' 6 4 1 1, Rect.mk' 5 0 1 1,
          Rect.mk' 2 0 3 4] := by
  decide

/-- C5 amended: gap removal is a fixed point under repetition for sequences
of at most one rectangle; for two or more rectangles a second application
can expand further, as the counterexample shows. -/
theorem removeGaps_idempotent_small (maxS cont : Size) (rects : List Rect)
    (h : rects.length ≤ 1) :
    removeGaps maxS cont (removeGaps maxS cont rects) =
      removeGaps maxS cont rects := by
  have houter : removeGaps maxS cont rects =
      (runFuel maxS cont (gapMeasure maxS rects + 1)
        (rects, initFreedoms cont rects)).1 := rfl
  rw [houter]
  set out := runFuel maxS cont (gapMeasure maxS rects + 1)
    (rects, initFreedoms cont rects) with hout
  have hfix : gapStep maxS cont out = none :=
    runFuel_fixed maxS cont _ _ (Nat.lt_succ_self _)
  have hlen : out.1.length ≤ 1 := by
    rw [hout, runFuel_length]
    exact h
  have h2 : gapStep maxS cont (out.1, initFreedoms cont out.1) = none := by
    rw [gapStep_congr_short (s := (out.1, initFreedoms cont out.1))
      (t := out) rfl hlen]
    exact hfix
  unfold removeGaps
  rw [runFuel, h2]

/-- C5 amended witness at a concrete singleton. -/
theorem removeGaps_idempotent_small_witness :
    ([Rect.mk' 0 0 1 1].length ≤ 1) ∧
      removeGaps ⟨2, 2⟩ ⟨2, 2⟩ (removeGaps ⟨2, 2⟩ ⟨2, 2⟩ [Rect.mk' 0 0 1 1]) =
        removeGaps ⟨2, 2⟩ ⟨2, 2⟩ [Rect.mk' 0 0 1 1] :=
  ⟨by decide,
    removeGaps_idempotent_small ⟨2, 2⟩ ⟨2, 2⟩ [Rect.mk' 0 0 1 1] (by decide)⟩

/-- C9 counterexample: a rectangle whose left edge sits exactly on the
container's right edge keeps its position and receives width 1, so it still
extends past the container after the clamp pass. -/
theorem trimOutside_counterexample :
    trimOutside ⟨2, 2⟩ [Rect.mk' 2 0 1 1] = [Rect.mk' 2 0 1 1] ∧
      (Rect.mk' 2 0 1 1).right > 2 := by
  decide

/-- C9 amended: the clamp pass never changes positions, and when every
rectangle's top-left lies strictly inside the container, no clamped
rectangle extends past the container. -/
theorem trimOutside_spec (container : Size) (rects : List Rect) :
    (trimOutside container rects).map Rect.pos = rects.map Rect.pos ∧
      ((∀ r ∈ rects, r.pos.x < container.width ∧ r.pos.y < container.height) →
        ∀ r ∈ trimOutside container rects,
          r.right ≤ container.width ∧ r.bottom ≤ container.height) := by
  constructor
  · unfold trimOutside
    rw [List.map_map]
    exact List.map_congr_left (fun r _ => rfl)
  · intro hin r hr
    unfold trimOutside at hr
    rw [List.mem_map] at hr
    obtain ⟨r0, hr0, rfl⟩ := hr
    obtain ⟨hx, hy⟩ := hin r0 hr0
    dsimp only [Rect.right, Rect.bottom, Rect.width, Rect.height, usizeSub]
    constructor
    · rw [if_pos (Nat.le_of_lt hx)]
      split <;> omega
    · rw [if_pos (Nat.le_of_lt hy)]
      split <;> omega

/-- C9 amended witness at a concrete input. -/
theorem trimOutside_spec_witness :
    ((∀ r ∈ [Rect.mk' 1 1 5 5], r.pos.x < 2 ∧ r.pos.y < 2) ∧
      ∀ r ∈ trimOutside ⟨2, 2⟩ [Rect.mk' 1 1 5 5], r.right ≤ 2 ∧ r.bottom ≤ 2) :=
  ⟨by decide,
    (trimOutside_spec ⟨2, 2⟩ [Rect.mk' 1 1 5 5]).2 (by decide)⟩

theorem log2F_eq (fuel : Nat) : ∀ n : Nat, n ≤ fuel → log2F fuel n = Nat.log2 n := by
  induction fuel with
  | zero =>
    intro n h
    have hn : n = 0 := by omega
    subst hn
    rw [log2F, Nat.log2_zero]
  | succ f ih =>
    intro n h
    rw [log2F]
    by_cases h2 : n ≥ 2
    · rw [if_pos h2, ih (n / 2) (by omega)]
      conv_rhs => rw [Nat.log2]
      rw [if_pos h2]
    · rw [if_neg h2]
      conv_rhs => rw [Nat.log2]
      rw [if_neg h2]

theorem ilog2_eq_log2 (n : Nat) : ilog2 n = Nat.log2 n := log2F_eq n n le_rfl

/-- C6: the `bits_for` base cases and closed form (`Nat.log 2` is the floor
base-2 logarithm), the scenario values, and the fact that every codec field's
bit-width is `bits_for` of the ceiling of its usable span over 128. -/
theorem bitsFor_spec :
    bitsFor 0 = 0 ∧ bitsFor 1 = 1 ∧
      (∀ n, 2 ≤ n → bitsFor n = Nat.log 2 (n - 1) + 1) ∧
      bitsFor 2 = 1 ∧ bitsFor 3 = 2 ∧ bitsFor 5 = 3 ∧
      (∀ x, reducedBitsFor x = bitsFor (divCeil x 128)) ∧
      ∀ minSize maxSize container : Size, ∀ count : Nat,
        (Decoder.new minSize maxSize container count).xBitsRange.2 -
            (Decoder.new minSize maxSize container count).xBitsRange.1 =
          reducedBitsFor (container.width - minSize.width) ∧
        (Decoder.new minSize maxSize container count).yBitsRange.2 -
            (Decoder.new minSize maxSize container count).yBitsRange.1 =
          reducedBitsFor (container.height - minSize.height) ∧
        (Decoder.new minSize maxSize container count).wBitsRange.2 -
            (Decoder.new minSize maxSize container count).wBitsRange.1 =
          reducedBitsFor (maxSize.width - minSize.width) ∧
        (Decoder.new minSize maxSize container count).hBitsRange.2 -
            (Decoder.new minSize maxSize container count).hBitsRange.1 =
          reducedBitsFor (maxSize.height - minSize.height) := by
  refine ⟨rfl, rfl, fun n hn => ?_, by decide, by decide, by decide, fun x => rfl,
    fun minSize maxSize container count => ?_⟩
  · rw [bitsFor, if_neg (by omega), if_neg (by omega), ilog2_eq_log2,
      Nat.log2_eq_log_two]
  · refine ⟨?_, ?_, ?_, ?_⟩ <;> (simp only [Decoder.new]; omega)

/-- C6 witness at a concrete bound. -/
theorem bitsFor_spec_witness :
    (2 : Nat) ≤ 5 ∧ bitsFor 5 = Nat.log 2 4 + 1 :=
  ⟨by decide, bitsFor_spec.2.2.1 5 (by decide)⟩

theorem reversedBitsToInt_fold (bs : List Bool) :
    ∀ acc a : Nat,
      (bs.foldl (fun (p : Nat × Nat) b =>
        (if b then p.1 + p.2 else p.1, 2 * p.2)) (acc, a)).1 =
        acc + a * specLEInt bs := by
  induction bs with
  | nil => intro acc a; simp [specLEInt]
  | cons b t ih =>
    intro acc a
    rw [List.foldl_cons, specLEInt]
    cases b <;> simp only [if_true, if_false, Bool.false_eq_true] <;> rw [ih] <;> ring

/-- The little-endian fold computes the positional weighting. -/
theorem reversedBitsToInt_eq (bs : List Bool) :
    reversedBitsToInt bs = specLEInt bs := by
  unfold reversedBitsToInt
  rw [reversedBitsToInt_fold bs 0 1]
  ring

theorem specLEInt_lt (bs : List Bool) : specLEInt bs < 2 ^ bs.length := by
  induction bs with
  | nil => simp [specLEInt]
  | cons b t ih =>
    rw [specLEInt, List.length_cons, Nat.pow_succ]
    cases b <;> simp only [if_true, if_false, Bool.false_eq_true] <;> omega

theorem ratFloorNat_bounds {lo hi : Nat} {v : ℚ} (h1 : (lo : ℚ) ≤ v)
    (h2 : v ≤ (hi : ℚ)) : lo ≤ ratFloorNat v ∧ ratFloorNat v ≤ hi := by
  have hl : (lo : ℤ) ≤ ⌊v⌋ := Int.le_floor.mpr (by push_cast; exact h1)
  have hh : ⌊v⌋ ≤ (hi : ℤ) := by
    have h3 := Int.floor_le_floor h2
    rwa [Int.floor_natCast] at h3
  unfold ratFloorNat
  omega

theorem toFracLE_decode_bounds (lo hi : Nat) (hle : lo ≤ hi) (bs : List Bool) :
    (lo : ℚ) ≤ ToFracLE.decode ⟨(lo : ℚ), (hi : ℚ)⟩ bs ∧
      ToFracLE.decode ⟨(lo : ℚ), (hi : ℚ)⟩ bs ≤ (hi : ℚ) := by
  unfold ToFracLE.decode
  dsimp only
  split
  · exact ⟨le_rfl, by exact_mod_cast hle⟩
  · rename_i hn
    have hlen : 1 ≤ bs.length := by omega
    have h2n : (2 : ℚ) ≤ 2 ^ bs.length := by
      calc (2 : ℚ) = 2 ^ 1 := by norm_num
        _ ≤ 2 ^ bs.length := by
          apply pow_le_pow_right₀ (by norm_num) hlen
    have hden : (0 : ℚ) < 2 ^ bs.length - 1 := by linarith
    have ha : (0 : ℚ) ≤ ((hi : ℚ) - lo) / (2 ^ bs.length - 1) := by
      apply div_nonneg _ (le_of_lt hden)
      have : (lo : ℚ) ≤ hi := by exact_mod_cast hle
      linarith
    have hint0 : (0 : ℚ) ≤ (reversedBitsToInt bs : ℚ) := by positivity
    have hintle : (reversedBitsToInt bs : ℚ) ≤ 2 ^ bs.length - 1 := by
      have h5 : reversedBitsToInt bs ≤ 2 ^ bs.length - 1 := by
        rw [reversedBitsToInt_eq]
        have := specLEInt_lt bs
        omega
      have h6 : ((2 ^ bs.length - 1 : Nat) : ℚ) = 2 ^ bs.length - 1 := by
        rw [Nat.cast_sub (Nat.one_le_two_pow)]
        push_cast
        ring
      rw [← h6]
      exact_mod_cast h5
    constructor
    · nlinarith
    · have hmul : ((hi : ℚ) - lo) / (2 ^ bs.length - 1) *
          (reversedBitsToInt bs : ℚ) ≤ (hi : ℚ) - lo := by
        rw [div_mul_eq_mul_div, div_le_iff₀ hden]
        have : (lo : ℚ) ≤ hi := by exact_mod_cast hle
        nlinarith
      linarith

theorem forall_mem_of_getD {α : Type} [Inhabited α] {rs : List α} {B : α → Prop}
    (h : ∀ k, k < rs.length → B (rs.getD k default)) : ∀ r ∈ rs, B r := by
  intro r hr
  obtain ⟨k, hk, heq⟩ := List.mem_iff_getElem.mp hr
  have hB := h k hk
  rwa [List.getD_eq_getElem _ _ hk, heq] at hB

theorem getD_of_forall_mem {α : Type} [Inhabited α] {rs : List α} {B : α → Prop}
    (h : ∀ r ∈ rs, B r) : ∀ k, k < rs.length → B (rs.getD k default) := by
  intro k hk
  rw [List.getD_eq_getElem _ _ hk]
  exact h _ (List.getElem_mem hk)

/-- The raw field decode of one rectangle lands in the configured ranges,
for any bit chunk. -/
theorem decodeRect_bounds (minS maxS cont : Size) (count : Nat)
    (h3 : minS.width ≤ maxS.width) (h4 : minS.height ≤ maxS.height)
    (chunk : List Bool) :
    ((Decoder.new minS maxS cont count).decodeRect chunk).pos.x ≤
        cont.width - minS.width ∧
      ((Decoder.new minS maxS cont count).decodeRect chunk).pos.y ≤
        cont.height - minS.height ∧
      minS.width ≤ ((Decoder.new minS maxS cont count).decodeRect chunk).width ∧
      ((Decoder.new minS maxS cont count).decodeRect chunk).width ≤
        maxS.width ∧
      minS.height ≤
        ((Decoder.new minS maxS cont count).decodeRect chunk).height ∧
      ((Decoder.new minS maxS cont count).decodeRect chunk).height ≤
        maxS.height := by
  have hx := toFracLE_decode_bounds 0 (cont.width - minS.width) (Nat.zero_le _)
    (bitSlice (Decoder.new minS maxS cont count).xBitsRange chunk)
  have hy := toFracLE_decode_bounds 0 (cont.height - minS.height) (Nat.zero_le _)
    (bitSlice (Decoder.new minS maxS cont count).yBitsRange chunk)
  have hw := toFracLE_decode_bounds minS.width maxS.width h3
    (bitSlice (Decoder.new minS maxS cont count).wBitsRange chunk)
  have hh := toFracLE_decode_bounds minS.height maxS.height h4
    (bitSlice (Decoder.new minS maxS cont count).hBitsRange chunk)
  rw [Nat.cast_zero] at hx hy
  have hxd : (Decoder.new minS maxS cont count).xDec =
      ⟨(0 : ℚ), ((cont.width - minS.width : Nat) : ℚ)⟩ := rfl
  have hyd : (Decoder.new minS maxS cont count).yDec =
      ⟨(0 : ℚ), ((cont.height - minS.height : Nat) : ℚ)⟩ := rfl
  have hwd : (Decoder.new minS maxS cont count).wDec =
      ⟨((minS.width : Nat) : ℚ), ((maxS.width : Nat) : ℚ)⟩ := rfl
  have hhd : (Decoder.new minS maxS cont count).hDec =
      ⟨((minS.height : Nat) : ℚ), ((maxS.height : Nat) : ℚ)⟩ := rfl
  dsimp only [Decoder.decodeRect, Rect.mk', Rect.width, Rect.height]
  rw [hxd, hyd, hwd, hhd]
  exact ⟨(ratFloorNat_bounds hx.1 hx.2).2, (ratFloorNat_bounds hy.1 hy.2).2,
    (ratFloorNat_bounds hw.1 hw.2).1, (ratFloorNat_bounds hw.1 hw.2).2,
    (ratFloorNat_bounds hh.1 hh.2).1, (ratFloorNat_bounds hh.1 hh.2).2⟩

/-- Clamping keeps widths and heights inside the configured bounds when the
positions were decoded in range. -/
theorem trimOutside_bounds (minS maxS cont : Size) (rects : List Rect)
    (h1 : 1 ≤ minS.width) (h2 : 1 ≤ minS.height)
    (h5 : minS.width ≤ cont.width) (h6 : minS.height ≤ cont.height)
    (hin : ∀ r ∈ rects,
      r.pos.x ≤ cont.width - minS.width ∧ r.pos.y ≤ cont.height - minS.height ∧
      minS.width ≤ r.width ∧ r.width ≤ maxS.width ∧
      minS.height ≤ r.height ∧ r.height ≤ maxS.height) :
    ∀ r ∈ trimOutside cont rects,
      minS.width ≤ r.width ∧ r.width ≤ maxS.width ∧
      minS.height ≤ r.height ∧ r.height ≤ maxS.height := by
  intro r hr
  unfold trimOutside at hr
  rw [List.mem_map] at hr
  obtain ⟨r0, h0, rfl⟩ := hr
  obtain ⟨ha, hb, hc, hd, he, hf⟩ := hin r0 h0
  dsimp only [Rect.width, Rect.height, usizeSub] at *
  rw [if_pos (show r0.pos.x ≤ cont.width by omega),
    if_pos (show r0.pos.y ≤ cont.height by omega)]
  split_ifs <;> omega

/-- Each gap-removal iteration keeps widths and heights inside the
configured bounds. -/
theorem gapStep_bounds (minS maxS cont : Size) {s s' : GapState}
    (h : gapStep maxS cont s = some s')
    (hP : ∀ k, k < s.1.length →
      minS.width ≤ (s.1.getD k default).width ∧
      (s.1.getD k default).width ≤ maxS.width ∧
      minS.height ≤ (s.1.getD k default).height ∧
      (s.1.getD k default).height ≤ maxS.height) :
    ∀ k, k < s'.1.length →
      minS.width ≤ (s'.1.getD k default).width ∧
      (s'.1.getD k default).width ≤ maxS.width ∧
      minS.height ≤ (s'.1.getD k default).height ∧
      (s'.1.getD k default).height ≤ maxS.height := by
  unfold gapStep at h
  dsimp only at h
  cases hstep : largestSafeStep (iterFreedoms maxS cont s) with
  | none => rw [hstep] at h; simp at h
  | some step =>
    rw [hstep] at h
    simp only [Option.some_inj] at h
    subst h
    intro k hk
    dsimp only at hk ⊢
    have hklen : k < s.1.length := by
      rw [List.length_map, List.length_zip, length_iterFreedoms] at hk
      omega
    rw [getD_expand step s.1 _ k hklen (by rw [length_iterFreedoms]; omega)]
    have hb := iterFreedoms_budget maxS cont s k
    have hPk := hP k hklen
    dsimp only [expandRect, Rect.width, Rect.height] at hb hPk ⊢
    omega

/-- Width and height bounds are preserved through the whole gap-removal
loop. -/
theorem removeGaps_bounds (minS maxS cont : Size) (rects : List Rect)
    (hin : ∀ r ∈ rects,
      minS.width ≤ r.width ∧ r.width ≤ maxS.width ∧
      minS.height ≤ r.height ∧ r.height ≤ maxS.height) :
    ∀ r ∈ removeGaps maxS cont rects,
      minS.width ≤ r.width ∧ r.width ≤ maxS.width ∧
      minS.height ≤ r.height ∧ r.height ≤ maxS.height := by
  apply forall_mem_of_getD
  unfold removeGaps
  exact runFuel_invariant maxS cont
    (fun rs => ∀ k, k < rs.length →
      minS.width ≤ (rs.getD k default).width ∧
      (rs.getD k default).width ≤ maxS.width ∧
      minS.height ≤ (rs.getD k default).height ∧
      (rs.getD k default).height ≤ maxS.height)
    (fun u u' hg hP => gapStep_bounds minS maxS cont hg hP) _ _
    (getD_of_forall_mem hin)

theorem length_chunksOf (k : Nat) : ∀ (n : Nat) (bs : List Bool),
    (chunksOf k n bs).length = n := by
  intro n
  induction n with
  | zero => intro bs; rfl
  | succ m ih => intro bs; rw [chunksOf, List.length_cons, ih]

theorem length_trimOutside (cont : Size) (rects : List Rect) :
    (trimOutside cont rects).length = rects.length := by
  unfold trimOutside
  exact List.length_map _ _

theorem toFracLE_decode_eq_spec (lo hi : ℚ) (bs : List Bool) :
    ToFracLE.decode ⟨lo, hi⟩ bs = specFieldVal lo hi bs := by
  unfold ToFracLE.decode specFieldVal
  dsimp only
  split
  · rfl
  · rw [reversedBitsToInt_eq]
    ring

/-- C1: for every valid configuration and every bit vector of the codec's
total bit count, decoding is total: it yields `count` rectangles; the
little-endian fold computes the positional weighting of the bits; each
field decoder realizes the claimed affine map `lo + (hi - lo) * int /
(2 ^ bits - 1)` (or `lo` for zero bits); and every resulting rectangle,
after the clamp and gap-removal passes of `decode2`, has non-negative
position and width and height within the configured min/max bounds. -/
theorem decoder_decode1_spec (minS maxS cont : Size) (count : Nat)
    (bs : List Bool)
    (h1 : 1 ≤ minS.width) (h2 : 1 ≤ minS.height)
    (h3 : minS.width ≤ maxS.width) (h4 : minS.height ≤ maxS.height)
    (h5 : maxS.width ≤ cont.width) (h6 : maxS.height ≤ cont.height)
    (_hlen : bs.length = (Decoder.new minS maxS cont count).bits) :
    ((Decoder.new minS maxS cont count).decode1 bs).length = count ∧
      (∀ bits : List Bool, reversedBitsToInt bits = specLEInt bits) ∧
      (∀ lo hi : ℚ, ∀ bits : List Bool,
        ToFracLE.decode ⟨lo, hi⟩ bits = specFieldVal lo hi bits) ∧
      ∀ r ∈ (Decoder.new minS maxS cont count).decode1 bs,
        0 ≤ r.pos.x ∧ 0 ≤ r.pos.y ∧
        minS.width ≤ r.width ∧ r.width ≤ maxS.width ∧
        minS.height ≤ r.height ∧ r.height ≤ maxS.height := by
  refine ⟨?_, reversedBitsToInt_eq,
    fun lo hi bits => toFracLE_decode_eq_spec lo hi bits, ?_⟩
  · unfold Decoder.decode1
    rw [removeGaps_length, length_trimOutside, List.length_map, length_chunksOf]
    rfl
  · intro r hr
    unfold Decoder.decode1 at hr
    refine ⟨Nat.zero_le _, Nat.zero_le _, ?_⟩
    refine removeGaps_bounds minS maxS cont _ ?_ r hr
    apply trimOutside_bounds minS maxS cont _ h1 h2 (h3.trans h5) (h4.trans h6)
    intro r0 hr0
    rw [List.mem_map] at hr0
    obtain ⟨chunk, _, rfl⟩ := hr0
    exact decodeRect_bounds minS maxS cont count h3 h4 chunk

/-- C2 counterexample: a 2-by-1 container with a single unit rectangle; the
code evaluates to (2-1)/(2-1) = 1, not the claimed (2-1)/2 = 1/2. -/
theorem minimizeGaps_counterexample :
    (MinimizeGaps.new ⟨2, 1⟩).evaluate [Rect.mk' 0 0 1 1] ≠
      (((Size.mk 2 1).area : ℚ) - (coveredArea [Rect.mk' 0 0 1 1] : ℚ)) /
        ((Size.mk 2 1).area : ℚ) := by
  have hcov : coveredArea [Rect.mk' 0 0 1 1] = 1 := by decide
  have harea : (Size.mk 2 1).area = 2 := by decide
  have hsub : usizeSub 2 1 = 1 := by decide
  unfold MinimizeGaps.evaluate MinimizeGaps.new
  rw [if_neg (by decide), hcov, harea]
  dsimp only
  rw [hsub]
  norm_num

/-- C2 amended: the Gaps objective is 1 for the empty sequence, and for a
non-empty sequence whose covered area does not exceed a container of area
at least 2 it equals (container.area - covered_area) / (container.area - 1):
the divisor is the worst case `container.area - 1`, not `container.area`. -/
theorem minimizeGaps_spec (container : Size) (rects : List Rect)
    (h2 : 2 ≤ container.area) (hcov : coveredArea rects ≤ container.area) :
    (MinimizeGaps.new container).evaluate [] = 1 ∧
      (rects ≠ [] → (MinimizeGaps.new container).evaluate rects =
        ((container.area : ℚ) - (coveredArea rects : ℚ)) /
          ((container.area : ℚ) - 1)) := by
  constructor
  · unfold MinimizeGaps.evaluate
    rw [if_pos rfl]
  · intro hne
    unfold MinimizeGaps.evaluate MinimizeGaps.new
    rw [if_neg hne]
    dsimp only
    rw [usizeSub, if_pos hcov, Nat.cast_sub hcov, Nat.cast_sub (by omega),
      Nat.cast_one]

/-- C2 amended witness at a concrete container and rectangle. -/
theorem minimizeGaps_spec_witness :
    ((2 : Nat) ≤ (Size.mk 2 1).area ∧
        coveredArea [Rect.mk' 0 0 1 1] ≤ (Size.mk 2 1).area) ∧
      (MinimizeGaps.new ⟨2, 1⟩).evaluate [Rect.mk' 0 0 1 1] =
        (((Size.mk 2 1).area : ℚ) - (coveredArea [Rect.mk' 0 0 1 1] : ℚ)) /
          (((Size.mk 2 1).area : ℚ) - 1) :=
  ⟨⟨by decide, by decide⟩,
    (minimizeGaps_spec ⟨2, 1⟩ [Rect.mk' 0 0 1 1] (by decide) (by decide)).2
      (by decide)⟩

/-- C7 counterexample: a rectangle exceeding the container makes the usize
numerator of the Gaps objective wrap, so the fitness far exceeds the sum of
the weights; the claimed range does not hold for arbitrary sequences. -/
theorem problem_evaluate_counterexample :
    ¬((Problem.new ⟨1, 0, 0, 0, 0, 0, 0, 0⟩ [] [] ⟨2, 2⟩ ⟨2, 2⟩ []).evaluate
          [Rect.mk' 0 0 3 3] ≤
        (Problem.new ⟨1, 0, 0, 0, 0, 0, 0, 0⟩ [] [] ⟨2, 2⟩ ⟨2, 2⟩
          []).weights.total) := by
  have hcov : coveredArea [Rect.mk' 0 0 3 3] = 9 := by decide
  have hsub : usizeSub (Size.mk 2 2).area 9 = 18446744073709551611 := by decide
  have harea : (Size.mk 2 2).area = 4 := by decide
  unfold Problem.evaluate Problem.new Weights.total weightedTerm
  dsimp only
  rw [if_pos (by norm_num : (0 : ℚ) < 1)]
  rw [if_neg (lt_irrefl (0 : ℚ)), if_neg (lt_irrefl (0 : ℚ)),
    if_neg (lt_irrefl (0 : ℚ)), if_neg (lt_irrefl (0 : ℚ)),
    if_neg (lt_irrefl (0 : ℚ)), if_neg (lt_irrefl (0 : ℚ)),
    if_neg (lt_irrefl (0 : ℚ))]
  unfold MinimizeGaps.evaluate MinimizeGaps.new
  rw [if_neg (by decide)]
  dsimp only
  rw [hcov, hsub, harea]
  norm_num

theorem weightedTerm_bounds {w v : ℚ} (hw : 0 ≤ w) (h0 : 0 ≤ v) (h1 : v ≤ 1) :
    0 ≤ weightedTerm w v ∧ weightedTerm w v ≤ w := by
  unfold weightedTerm
  split
  · constructor
    · positivity
    · nlinarith
  · exact ⟨le_rfl, hw⟩

/-- C7 amended: the fitness is the sum of the weighted terms, where an
objective with non-positive weight contributes exactly 0 regardless of its
value; and whenever every sub-objective's value on the given sequence lies
in the unit interval and the weights are non-negative, the fitness lies in
the interval from 0 to the sum of all weights. For arbitrary sequences the
range claim fails, as the counterexample shows. -/
theorem problem_evaluate_range (p : Problem) (rects : List Rect)
    (hw : 0 ≤ p.weights.gapsWeight ∧ 0 ≤ p.weights.overlapWeight ∧
      0 ≤ p.weights.areaRatsWeight ∧ 0 ≤ p.weights.aspectRatsWeight ∧
      0 ≤ p.weights.adjacentCloseWeight ∧ 0 ≤ p.weights.readingOrderWeight ∧
      0 ≤ p.weights.centerMainWeight ∧ 0 ≤ p.weights.consistencyWeight)
    (hobj :
      (0 ≤ p.gaps.evaluate rects ∧ p.gaps.evaluate rects ≤ 1) ∧
      (0 ≤ p.overlap.evaluate rects ∧ p.overlap.evaluate rects ≤ 1) ∧
      (0 ≤ p.areaRats.evaluate rects ∧ p.areaRats.evaluate rects ≤ 1) ∧
      (0 ≤ p.aspectRats.evaluate rects ∧ p.aspectRats.evaluate rects ≤ 1) ∧
      (0 ≤ p.adjacentClose.evaluate rects ∧
        p.adjacentClose.evaluate rects ≤ 1) ∧
      (0 ≤ p.readingOrder.evaluate rects ∧
        p.readingOrder.evaluate rects ≤ 1) ∧
      (0 ≤ p.centerMain.evaluate rects ∧ p.centerMain.evaluate rects ≤ 1) ∧
      (0 ≤ p.consistency.evaluate rects ∧
        p.consistency.evaluate rects ≤ 1)) :
    (∀ v : ℚ, weightedTerm 0 v = 0) ∧
      0 ≤ p.evaluate rects ∧ p.evaluate rects ≤ p.weights.total := by
  obtain ⟨w1, w2, w3, w4, w5, w6, w7, w8⟩ := hw
  obtain ⟨o1, o2, o3, o4, o5, o6, o7, o8⟩ := hobj
  have t1 := weightedTerm_bounds w1 o1.1 o1.2
  have t2 := weightedTerm_bounds w2 o2.1 o2.2
  have t3 := weightedTerm_bounds w3 o3.1 o3.2
  have t4 := weightedTerm_bounds w4 o4.1 o4.2
  have t5 := weightedTerm_bounds w5 o5.1 o5.2
  have t6 := weightedTerm_bounds w6 o6.1 o6.2
  have t7 := weightedTerm_bounds w7 o7.1 o7.2
  have t8 := weightedTerm_bounds w8 o8.1 o8.2
  refine ⟨fun v => by unfold weightedTerm; rw [if_neg (lt_irrefl 0)], ?_, ?_⟩
  · unfold Problem.evaluate
    have := t1.1
    have := t2.1
    have := t3.1
    have := t4.1
    have := t5.1
    have := t6.1
    have := t7.1
    have := t8.1
    linarith
  · unfold Problem.evaluate Weights.total
    have := t1.2
    have := t2.2
    have := t3.2
    have := t4.2
    have := t5.2
    have := t6.2
    have := t7.2
    have := t8.2
    linarith

/-- C7 amended witness at a concrete problem and sequence. -/
theorem problem_evaluate_range_witness :
    0 ≤ (Problem.new ⟨0, 0, 0, 0, 0, 0, 0, 0⟩ [] [] ⟨2, 2⟩ ⟨2, 2⟩ []).evaluate
        [] ∧
      (Problem.new ⟨0, 0, 0, 0, 0, 0, 0, 0⟩ [] [] ⟨2, 2⟩ ⟨2, 2⟩ []).evaluate
          [] ≤
        (Problem.new ⟨0, 0, 0, 0, 0, 0, 0, 0⟩ [] [] ⟨2, 2⟩ ⟨2, 2⟩
          []).weights.total := by
  have e1 : (Problem.new ⟨0, 0, 0, 0, 0, 0, 0, 0⟩ [] [] ⟨2, 2⟩ ⟨2, 2⟩
      []).gaps.evaluate [] = 1 := rfl
  have e2 : (Problem.new ⟨0, 0, 0, 0, 0, 0, 0, 0⟩ [] [] ⟨2, 2⟩ ⟨2, 2⟩
      []).overlap.evaluate [] = 0 := rfl
  have e3 : (Problem.new ⟨0, 0, 0, 0, 0, 0, 0, 0⟩ [] [] ⟨2, 2⟩ ⟨2, 2⟩
      []).areaRats.evaluate [] = 0 := rfl
  have e4 : (Problem.new ⟨0, 0, 0, 0, 0, 0, 0, 0⟩ [] [] ⟨2, 2⟩ ⟨2, 2⟩
      []).aspectRats.evaluate [] = 0 := rfl
  have e5 : (Problem.new ⟨0, 0, 0, 0, 0, 0, 0, 0⟩ [] [] ⟨2, 2⟩ ⟨2, 2⟩
      []).adjacentClose.evaluate [] = 0 := rfl
  have e6 : (Problem.new ⟨0, 0, 0, 0, 0, 0, 0, 0⟩ [] [] ⟨2, 2⟩ ⟨2, 2⟩
      []).readingOrder.evaluate [] = 0 := rfl
  have e7 : (Problem.new ⟨0, 0, 0, 0, 0, 0, 0, 0⟩ [] [] ⟨2, 2⟩ ⟨2, 2⟩
      []).centerMain.evaluate [] = 0 := rfl
  have e8 : (Problem.new ⟨0, 0, 0, 0, 0, 0, 0, 0⟩ [] [] ⟨2, 2⟩ ⟨2, 2⟩
      []).consistency.evaluate [] = 0 := rfl
  have h := problem_evaluate_range
    (Problem.new ⟨0, 0, 0, 0, 0, 0, 0, 0⟩ [] [] ⟨2, 2⟩ ⟨2, 2⟩ []) []
    ⟨le_rfl, le_rfl, le_rfl, le_rfl, le_rfl, le_rfl, le_rfl, le_rfl⟩
    ⟨⟨by rw [e1]; norm_num, by rw [e1]⟩, ⟨by rw [e2], by rw [e2]; norm_num⟩,
      ⟨by rw [e3], by rw [e3]; norm_num⟩, ⟨by rw [e4], by rw [e4]; norm_num⟩,
      ⟨by rw [e5], by rw [e5]; norm_num⟩, ⟨by rw [e6], by rw [e6]; norm_num⟩,
      ⟨by rw [e7], by rw [e7]; norm_num⟩, ⟨by rw [e8], by rw [e8]; norm_num⟩⟩
  exact ⟨h.2.1, h.2.2⟩

/-- C8 counterexample: the value 2 to the power -53 is strictly positive yet
`AspectRatio::new` rejects it as too low, because the actual lower bound is
`f64::EPSILON`, not 0 exclusive. -/
theorem newFromLowerBounded_some (m q : ℚ) :
    newFromLowerBounded m (some q) =
      if q < m then .error (.tooLow (some q)) else .ok (some q) := by
  unfold newFromLowerBounded partialCmpF
  dsimp only
  rcases hc : compare q m with _ | _ | _
  · rw [if_pos (compare_lt_iff_lt.mp hc)]
  · rw [if_neg (by rw [compare_eq_iff_eq.mp hc]; exact lt_irrefl m)]
  · rw [if_neg (not_lt_of_gt (compare_gt_iff_gt.mp hc))]

theorem aspectRatNew_counterexample :
    (0 : ℚ) < 1 / 2 ^ 53 ∧
      aspectRatNew (some (1 / 2 ^ 53)) =
        Except.error (.tooLow (some (1 / 2 ^ 53))) := by
  refine ⟨by positivity, ?_⟩
  have h := newFromLowerBounded_some f64Eps (1 / 2 ^ 53)
  rw [if_pos] at h
  · exact h
  · unfold f64Eps
    rw [div_lt_div_iff₀ (by positivity) (by positivity)]
    norm_num

/-- C8 amended: each constructor is total and returns `tooLow` exactly when
the finite value is below its lower bound (0 for Weight, 1 for AreaRatio,
`f64::EPSILON` for AspectRatio, not merely positive), accepts it otherwise,
and returns the non-comparable error exactly on NaN. -/
theorem newtype_constructors_spec :
    (∀ q : ℚ, weightNew (some q) =
        if q < 0 then .error (.tooLow (some q)) else .ok (some q)) ∧
      weightNew none = .error (.isIncomparable none) ∧
      (∀ q : ℚ, areaRatNew (some q) =
        if q < 1 then .error (.tooLow (some q)) else .ok (some q)) ∧
      areaRatNew none = .error (.isIncomparable none) ∧
      (∀ q : ℚ, aspectRatNew (some q) =
        if q < f64Eps then .error (.tooLow (some q)) else .ok (some q)) ∧
      aspectRatNew none = .error (.isIncomparable none) :=
  ⟨fun q => newFromLowerBounded_some 0 q, rfl,
    fun q => newFromLowerBounded_some 1 q, rfl,
    fun q => newFromLowerBounded_some f64Eps q, rfl⟩

/-- C1 witness: a concrete valid configuration and bit vector. -/
theorem decoder_decode1_spec_witness :
    ((1 : Nat) ≤ 1 ∧ [false, true, true, false].length =
        (Decoder.new ⟨1, 1⟩ ⟨2, 2⟩ ⟨2, 2⟩ 1).bits) ∧
      ∀ r ∈ (Decoder.new ⟨1, 1⟩ ⟨2, 2⟩ ⟨2, 2⟩ 1).decode1
          [false, true, true, false],
        0 ≤ r.pos.x ∧ 0 ≤ r.pos.y ∧
        1 ≤ r.width ∧ r.width ≤ 2 ∧ 1 ≤ r.height ∧ r.height ≤ 2 :=
  ⟨⟨by decide, by decide⟩,
    (decoder_decode1_spec ⟨1, 1⟩ ⟨2, 2⟩ ⟨2, 2⟩ 1 [false, true, true, false]
      (by decide) (by decide) (by decide) (by decide) (by decide) (by decide)
      (by decide)).2.2.2⟩

end Owm
